import Mathlib

/-!
ResumeInterviewQuestion: leaderboard service and quiz session

A shallow embedding of `backend/server.js` (the `POST /api/score` and
`GET /api/leaderboard` handlers over the `Score` collection) and of
`client/src/App.jsx` (the quiz session, scoring, text extraction on upload and
question generation), with the properties of the written specification stated
and proved over it.

Modelling conventions.

* The `Score` collection is a list of documents in insertion order; `findOne`
  returns the first matching document and `save` on a found document rewrites
  that document in place.
* A field of a JSON body or of a document is `none` when it is absent
  (`undefined` in JavaScript) and `some v` when it holds a value of the schema
  type (`String` for the text fields, an integer for `score`).
* `new Date()` and the schema default `Date.now` read a clock; the clock value
  is an explicit argument `now` of the handler.
-/

namespace Server

/-- A document of the `Score` collection (`ScoreSchema`). -/
structure Score where
  name : Option String
  email : Option String
  picture : Option String
  googleId : Option String
  score : Option Int
  date : Nat
deriving DecidableEq, Repr

/-- The fields the handler destructures from `req.body`. -/
structure Body where
  name : Option String
  email : Option String
  picture : Option String
  googleId : Option String
  score : Option Int
deriving DecidableEq, Repr

/-- A JSON value occurring in a response body. -/
inductive JVal where
  | bool (b : Bool)
  | str (s : String)
deriving DecidableEq, Repr

/-- What `res.status(..).json(..)` sends: the status code (200 unless set) and
the key/value pairs of the JSON object. -/
structure Response where
  status : Nat
  json : List (String × JVal)
deriving DecidableEq, Repr

/-- The collection. -/
abbrev Store := List Score

/-- JavaScript `!email` for a field that is absent or a string: true when the
field is `undefined` or the empty string. -/
def emailFalsy : Option String → Bool
  | none => true
  | some s => s == ""

/-- JavaScript `a > b` on values that are numbers or `undefined`: a comparison
with `undefined` is false. -/
def jsGt : Option Int → Option Int → Bool
  | some a, some b => decide (b < a)
  | _, _ => false

/-- `Score.findOne({ email })`: the first document whose email is `email`. -/
def findOne (store : Store) (email : String) : Option Score :=
  store.find? (fun r => r.email == some email)

/-- `existing.save()` after the assignments of the update branch: the document
that `findOne` returned (the first one with this email) is rewritten by `f`. -/
def saveExisting (email : String) (f : Score → Score) : Store → Store
  | [] => []
  | r :: rs =>
    if r.email == some email then f r :: rs else r :: saveExisting email f rs

/-- The assignments of the update branch (`existing.score = score`, `name`,
`picture`, `googleId`, `existing.date = new Date()`); the email is not assigned. -/
def overwrite (body : Body) (now : Nat) (existing : Score) : Score :=
  { existing with score := body.score, name := body.name, picture := body.picture,
                  googleId := body.googleId, date := now }

/-- The handler of `POST /api/score`: the store after the request and the
response sent. -/
def postScore (store : Store) (now : Nat) (body : Body) : Store × Response :=
  if emailFalsy body.email then
    (store, { status := 400, json := [("error", JVal.str "Email required")] })
  else
    match body.email with
    -- not reached: an absent email is falsy
    | none => (store, { status := 400, json := [("error", JVal.str "Email required")] })
    | some email =>
      match findOne store email with
      | none =>
        (store ++ [{ name := body.name, email := some email, picture := body.picture,
                     googleId := body.googleId, score := body.score, date := now }],
         { status := 200, json := [("success", JVal.bool true), ("new", JVal.bool true)] })
      | some existing =>
        if jsGt body.score existing.score then
          (saveExisting email (overwrite body now) store,
           { status := 200, json := [("success", JVal.bool true), ("updated", JVal.bool true)] })
        else
          (store, { status := 200,
                    json := [("success", JVal.bool true), ("updated", JVal.bool false)] })

/-- A sequence of requests, each with the clock value at which it is handled,
processed one after another. -/
def postAll (store : Store) : List (Nat × Body) → Store
  | [] => store
  | (now, body) :: rest => postAll (postScore store now body).1 rest

/-- The order of the `score` sort key: an absent score sorts below every
number, numbers by value. -/
def scoreLt : Option Int → Option Int → Bool
  | none, some _ => true
  | some a, some b => decide (a < b)
  | _, none => false

/-- The order of `.sort({ score: -1, date: 1 })`: `a` may stand before `b` when
its score is higher, or the scores are equal and its date is not later. -/
def ranksBefore (a b : Score) : Bool :=
  scoreLt b.score a.score || (a.score == b.score && decide (a.date ≤ b.date))

/-- Insertion of one document into a list ordered by `ranksBefore`. -/
def insertRanked (a : Score) : List Score → List Score
  | [] => [a]
  | b :: rest => if ranksBefore a b then a :: b :: rest else b :: insertRanked a rest

/-- `.sort({ score: -1, date: 1 })` on the whole collection. -/
def sortRanked : List Score → List Score
  | [] => []
  | a :: rest => insertRanked a (sortRanked rest)

/-- The handler of `GET /api/leaderboard`: `find().sort(..).limit(10)`. -/
def leaderboard (store : Store) : List Score :=
  (sortRanked store).take 10

/-- "Not lower": the order in which a stored score is compared over time.  A
number is not lower than a number at most as large; an absent score is
comparable with an absent score only. -/
def scoreLe : Option Int → Option Int → Prop
  | some a, some b => a ≤ b
  | none, none => True
  | _, _ => False

instance (a b : Option Int) : Decidable (scoreLe a b) := by
  cases a <;> cases b <;> unfold scoreLe <;> infer_instance

end Server

namespace Server

/-- The scores of the requests of a sequence that carry the email `e`, in
order. -/
def submittedScores (reqs : List (Nat × Body)) (e : String) : List Int :=
  reqs.filterMap (fun q => if q.2.email = some e then q.2.score else none)

/-- The score of the record that `findOne` returns for `e`; `none` when there
is no record or the record has no score. -/
def storedScore (store : Store) (e : String) : Option Int :=
  (findOne store e).bind (fun r => r.score)

/-- The larger of the score held so far, if any, and a new score. -/
def better (held : Option Int) (t : Int) : Int :=
  match held with
  | none => t
  | some s => max s t

/-- The score held after a list of further scores: `better` folded over it. -/
def bestAfter (held : Option Int) (scores : List Int) : Option Int :=
  scores.foldl (fun acc t => some (better acc t)) held

end Server

/-!
JavaScript numbers

A finite JavaScript number is the rational it denotes.  The result of an
arithmetic operation is the exact result rounded to the nearest IEEE 754 double
(53 significant bits, a tie going to the even significand).  The exponent is not
bounded: overflow and subnormal numbers, which need magnitudes beyond `2 ^ 1023`
or below `2 ^ (-1022)`, are not modelled.
-/

namespace Client

/-- Rounding to the nearest integer, a tie going to the even neighbour. -/
def roundHalfEven (y : ℚ) : ℤ :=
  if y - ⌊y⌋ < 1 / 2 then ⌊y⌋
  else if 1 / 2 < y - ⌊y⌋ then ⌊y⌋ + 1
  else if ⌊y⌋ % 2 = 0 then ⌊y⌋
  else ⌊y⌋ + 1

/-- The spacing of the doubles in the binade of `x`: `2 ^ (e - 52)` where
`2 ^ e ≤ |x| < 2 ^ (e + 1)`. -/
def ulp (x : ℚ) : ℚ :=
  (2 : ℚ) ^ (Int.log 2 |x| - 52)

/-- The double nearest to `x`. -/
def toDouble (x : ℚ) : ℚ :=
  if x = 0 then 0 else (roundHalfEven (x / ulp x) : ℚ) * ulp x

end Client

/-!
The quiz session of `client/src/App.jsx`

The component state that the quiz uses (`mcqQuestions`, `currentQuestionIndex`,
`userAnswers`, `showResults`, `score`) is one record; each handler is a function
on it, and each control of the quiz view is a predicate saying when the view
renders it enabled.
-/

namespace Client

/-- One element of the parsed question array. -/
structure Question where
  question : String
  options : List String
  correctAnswer : Int
  difficulty : String
  explanation : String
deriving DecidableEq, Repr

/-- The object `userAnswers`, as the list of its entries (question index,
selected option index).  Reading a key takes the first entry with that key. -/
abbrev Answers := List (Int × Nat)

/-- `userAnswers[index]`; `none` is `undefined`. -/
def answerAt (answers : Answers) (index : Int) : Option Nat :=
  answers.lookup index

/-- `{ ...prev, [questionIndex]: selectedOption }`. -/
def assign (prev : Answers) (questionIndex : Int) (selectedOption : Nat) : Answers :=
  (questionIndex, selectedOption) :: prev.filter (fun kv => kv.1 != questionIndex)

/-- `Object.keys(userAnswers)`: each key once. -/
def keys (answers : Answers) : List Int :=
  (answers.map Prod.fst).dedup

/-- The quiz part of the component state.  `score` is `none` when the stored
number is `NaN`. -/
structure Quiz where
  mcqQuestions : List Question
  currentQuestionIndex : Int
  userAnswers : Answers
  showResults : Bool
  score : Option ℚ
deriving DecidableEq

/-- The initial state (`useState([])`, `useState(0)`, `useState({})`,
`useState(false)`, `useState(0)`). -/
def initial : Quiz :=
  { mcqQuestions := [], currentQuestionIndex := 0, userAnswers := [],
    showResults := false, score := some 0 }

/-- `Object.keys(userAnswers).length`, the number of answered questions. -/
def answeredCount (s : Quiz) : Nat :=
  (keys s.userAnswers).length

/-- The success branch of `generateMCQ`: the parsed array replaces the
questions, the pointer, the answers and the results flag are reset. -/
def loadQuestions (s : Quiz) (questions : List Question) : Quiz :=
  { s with mcqQuestions := questions, currentQuestionIndex := 0, userAnswers := [],
           showResults := false }

/-- `handleAnswerSelect(questionIndex, selectedOption)`. -/
def handleAnswerSelect (s : Quiz) (questionIndex : Int) (selectedOption : Nat) : Quiz :=
  { s with userAnswers := assign s.userAnswers questionIndex selectedOption }

/-- The number of questions whose recorded answer is the correct option
(`userAnswers[index] === question.correctAnswer`), counted over the questions
from position `index` on. -/
def countCorrect (answers : Answers) : Nat → List Question → Nat
  | _, [] => 0
  | index, q :: rest =>
    (if (answerAt answers index).map Int.ofNat = some q.correctAnswer then 1 else 0)
      + countCorrect answers (index + 1) rest

/-- The number `(correctAnswers / totalQuestions) * 100`: the quotient and the
product are each rounded to a double. -/
def percentage (correctAnswers totalQuestions : Nat) : ℚ :=
  toDouble (toDouble ((correctAnswers : ℚ) / (totalQuestions : ℚ)) * 100)

/-- `calculateScore`: the percentage is stored and the results are shown; with
no question the quotient `0 / 0` is `NaN`. -/
def calculateScore (s : Quiz) : Quiz :=
  { s with
    score :=
      if s.mcqQuestions.length = 0 then none
      else some (percentage (countCorrect s.userAnswers 0 s.mcqQuestions)
                  s.mcqQuestions.length),
    showResults := true }

/-- `resetQuiz`. -/
def resetQuiz (_ : Quiz) : Quiz :=
  { mcqQuestions := [], currentQuestionIndex := 0, userAnswers := [],
    showResults := false, score := some 0 }

/-- The click handler of Previous: `Math.max(0, prev - 1)`. -/
def previous (s : Quiz) : Quiz :=
  { s with currentQuestionIndex := max 0 (s.currentQuestionIndex - 1) }

/-- The click handler of Next: `prev + 1`. -/
def next (s : Quiz) : Quiz :=
  { s with currentQuestionIndex := s.currentQuestionIndex + 1 }

/-- The render guard of the question view:
`mcqQuestions.length > 0 && !showResults`. -/
def quizVisible (s : Quiz) : Bool :=
  decide (0 < s.mcqQuestions.length) && !s.showResults

/-- `mcqQuestions[currentQuestionIndex]`; `none` is `undefined`. -/
def currentQuestion (s : Quiz) : Option Question :=
  if 0 ≤ s.currentQuestionIndex then s.mcqQuestions[s.currentQuestionIndex.toNat]? else none

/-- The view renders one radio input per option of the current question. -/
def selectOffered (s : Quiz) (optionIndex : Nat) : Bool :=
  quizVisible s &&
    match currentQuestion s with
    | some q => decide (optionIndex < q.options.length)
    | none => false

/-- The condition `currentQuestionIndex < mcqQuestions.length - 1` under which
the view renders Next, and otherwise Submit Quiz. -/
def notLast (s : Quiz) : Bool :=
  decide (s.currentQuestionIndex < (s.mcqQuestions.length : Int) - 1)

/-- Previous is rendered in the question view, `disabled` on question 0. -/
def previousEnabled (s : Quiz) : Bool :=
  quizVisible s && !decide (s.currentQuestionIndex = 0)

/-- Next is rendered in the question view while the question is not the last. -/
def nextEnabled (s : Quiz) : Bool :=
  quizVisible s && notLast s

/-- The `disabled` attribute of Submit Quiz:
`Object.keys(userAnswers).length < mcqQuestions.length`. -/
def submitDisabled (s : Quiz) : Bool :=
  decide (answeredCount s < s.mcqQuestions.length)

/-- Submit Quiz can be clicked: the question view is rendered, it shows the
last question (so the button is Submit Quiz and not Next), and the button is
not disabled. -/
def submitEnabled (s : Quiz) : Bool :=
  quizVisible s && !notLast s && !submitDisabled s

/-- What can happen to the quiz state. -/
inductive Event where
  | generate (questions : List Question)
  | select (optionIndex : Nat)
  | next
  | previous
  | submit
  | reset
deriving DecidableEq, Repr

/-- One event.  Select, Next, Previous and Submit act only when the view
offers the control enabled; a select records the option for the current
question.  A successful generation and a reset are taken in every state. -/
def step (s : Quiz) : Event → Quiz
  | Event.generate questions => loadQuestions s questions
  | Event.select optionIndex =>
    if selectOffered s optionIndex then handleAnswerSelect s s.currentQuestionIndex optionIndex
    else s
  | Event.next => if nextEnabled s then next s else s
  | Event.previous => if previousEnabled s then previous s else s
  | Event.submit => if submitEnabled s then calculateScore s else s
  | Event.reset => resetQuiz s

/-- The state after a sequence of events. -/
def run (s : Quiz) : List Event → Quiz
  | [] => s
  | ev :: rest => run (step s ev) rest

/-- Every question index `0 .. N-1` has an entry in the answer mapping. -/
def allAnswered (s : Quiz) : Bool :=
  (List.range s.mcqQuestions.length).all (fun i => (answerAt s.userAnswers (i : Int)).isSome)

/-- The invariant of the quiz session: the pointer is a question index (0 when
there is no question), every answered index is a question index, and once the
results are shown every question has an answer. -/
structure Inv (s : Quiz) : Prop where
  pointer_nonneg : 0 ≤ s.currentQuestionIndex
  pointer_lt : s.currentQuestionIndex < (s.mcqQuestions.length : Int) ∨
    (s.mcqQuestions.length = 0 ∧ s.currentQuestionIndex = 0)
  keys_range : ∀ k ∈ s.userAnswers.map Prod.fst, 0 ≤ k ∧ k < (s.mcqQuestions.length : Int)
  results_complete : s.showResults = true → allAnswered s = true

end Client

namespace Client

/-- `Math.round`: the nearest integer, a half rounding up. -/
def jsRound (x : ℚ) : Int :=
  ⌊x + 1 / 2⌋

/-- The score as the results view prints it, `Math.round(score)`; `none` is
`NaN`. -/
def displayedScore (score : Option ℚ) : Option Int :=
  score.map jsRound

/-- JavaScript `score >= t` for a stored score: false on `NaN`. -/
def jsGe (score : Option ℚ) (t : ℚ) : Bool :=
  match score with
  | some x => decide (t ≤ x)
  | none => false

/-- `getScoreMessage`. -/
def getScoreMessage (score : Option ℚ) : String :=
  if jsGe score 90 then "Excellent! Outstanding performance!"
  else if jsGe score 80 then "Great job! You have strong knowledge in this area."
  else if jsGe score 70 then "Good work! You have solid understanding."
  else if jsGe score 60 then "Fair performance. Keep learning and improving."
  else if jsGe score 50 then "Below average. Consider reviewing the topics."
  else "Needs improvement. Focus on learning the fundamentals."

/-- `getScoreColor`. -/
def getScoreColor (score : Option ℚ) : String :=
  if jsGe score 80 then "bg-green-600 shadow-green-500/50"
  else if jsGe score 60 then "bg-yellow-600 shadow-yellow-500/50"
  else "bg-red-600 shadow-red-500/50"

/-- The count the specification names: the number of indices `i < N` whose
recorded answer equals the correct-option index of question `i`. -/
def matchingCount (questions : List Question) (answers : Answers) : Nat :=
  ((List.range questions.length).filter (fun i =>
      match questions[i]? with
      | some q => decide ((answerAt answers (i : Int)).map Int.ofNat = some q.correctAnswer)
      | none => false)).length

end Client

/-!
Text extraction, upload and question generation of `client/src/App.jsx`

A JavaScript string is the list of its characters, one `Char` per UTF-16 code
unit (strings with characters outside the basic plane are not modelled).  The
regular expressions of `onDrop` and `generateMCQ` are written out as the list
functions they denote.
-/

namespace Client

/-- `/[a-zA-Z]/` on one character. -/
def isLetter (c : Char) : Bool :=
  (decide (97 ≤ c.toNat) && decide (c.toNat ≤ 122)) ||
    (decide (65 ≤ c.toNat) && decide (c.toNat ≤ 90))

/-- `\w`: a letter, a digit or the underscore. -/
def isWordChar (c : Char) : Bool :=
  isLetter c || (decide (48 ≤ c.toNat) && decide (c.toNat ≤ 57)) || decide (c.toNat = 95)

/-- `\s`, which is also what `trim` removes: white space and line terminators. -/
def isSpace (c : Char) : Bool :=
  (decide (9 ≤ c.toNat) && decide (c.toNat ≤ 13)) || decide (c.toNat = 32) ||
    decide (c.toNat = 160) || decide (c.toNat = 5760) ||
    (decide (8192 ≤ c.toNat) && decide (c.toNat ≤ 8202)) ||
    decide (c.toNat = 8232) || decide (c.toNat = 8233) || decide (c.toNat = 8239) ||
    decide (c.toNat = 8287) || decide (c.toNat = 12288) || decide (c.toNat = 65279)

/-- `[\x00-\x1F\x7F-\x9F]`, the separators of the block split. -/
def isControl (c : Char) : Bool :=
  decide (c.toNat ≤ 31) || (decide (127 ≤ c.toNat) && decide (c.toNat ≤ 159))

/-- The characters that `[^\w\s.,!?-]` does not match. -/
def isKept (c : Char) : Bool :=
  isWordChar c || isSpace c || decide (c = '.') || decide (c = ',') || decide (c = '!') ||
    decide (c = '?') || decide (c = '-')

/-- `.replace(/[^\w\s.,!?-]/g, ' ')`. -/
def blankOthers (s : List Char) : List Char :=
  s.map (fun c => if isKept c then c else ' ')

/-- `.replace(/\s+/g, ' ')`; `inRun` says that the character before was white
space of the run being replaced. -/
def collapseFrom (inRun : Bool) : List Char → List Char
  | [] => []
  | c :: rest =>
    if isSpace c then
      if inRun then collapseFrom true rest else ' ' :: collapseFrom true rest
    else c :: collapseFrom false rest

/-- `.replace(/\s+/g, ' ')`. -/
def collapseSpaces (s : List Char) : List Char :=
  collapseFrom false s

/-- `.trim()`. -/
def jsTrim (s : List Char) : List Char :=
  ((s.dropWhile isSpace).reverse.dropWhile isSpace).reverse

/-- `.split(re)` for a pattern `re` that matches exactly the single characters
satisfying `sep`. -/
def splitAt (sep : Char → Bool) : List Char → List (List Char)
  | [] => [[]]
  | c :: rest =>
    if sep c then [] :: splitAt sep rest
    else
      match splitAt sep rest with
      | [] => [[c]]
      | block :: blocks => (c :: block) :: blocks

/-- `.join(' ')`. -/
def joinSpace (parts : List (List Char)) : List Char :=
  List.intercalate [' '] parts

/-- The matches of `/\(([^)]+)\)/g`, each without its two parentheses
(`match.slice(1, -1)`).  `inside` is `none` outside a match and otherwise holds,
in reverse, the characters read since the opening parenthesis. -/
def parenthesised : Option (List Char) → List Char → List (List Char)
  | _, [] => []
  | none, c :: rest =>
    if c = '(' then parenthesised (some []) rest else parenthesised none rest
  | some inside, c :: rest =>
    if c = ')' then
      if inside.isEmpty then parenthesised none rest
      else inside.reverse :: parenthesised none rest
    else parenthesised (some (c :: inside)) rest

/-- The pieces of method 1: the matches longer than 3 characters that contain
a letter (`.filter(str => str.length > 3 && /[a-zA-Z]/.test(str))`). -/
def parenthesisPieces (pdfString : List Char) : List (List Char) :=
  (parenthesised none pdfString).filter
    (fun str => decide (3 < str.length) && str.any isLetter)

/-- Method 1: the parenthesised substrings longer than 3 characters that
contain a letter, joined by spaces. -/
def parenthesisCandidate (pdfString : List Char) : List Char :=
  joinSpace (parenthesisPieces pdfString)

/-- Method 2, `textBlocks`: the blocks between control characters that are
longer than 10 characters and contain a letter, cleaned and trimmed, and then
longer than 5 characters. -/
def textBlocks (pdfString : List Char) : List (List Char) :=
  (((splitAt isControl pdfString).filter
      (fun block => decide (10 < block.length) && block.any isLetter)).map
      (fun block => jsTrim (blankOthers block))).filter
    (fun block => decide (5 < block.length))

/-- Method 2 as one text. -/
def blockCandidate (pdfString : List Char) : List Char :=
  joinSpace (textBlocks pdfString)

/-- The matches of `/[a-zA-Z]+/g`: the maximal runs of letters. -/
def letterRuns (pdfString : List Char) : List (List Char) :=
  (splitAt (fun c => !isLetter c) pdfString).filter (fun run => !run.isEmpty)

/-- The words of method 3: the runs longer than 2 characters
(`.filter(word => word.length > 2)`). -/
def wordList (pdfString : List Char) : List (List Char) :=
  (letterRuns pdfString).filter (fun word => decide (2 < word.length))

/-- Method 3, `words`: the alphabetic runs (`/[a-zA-Z]+/g`) longer than 2
characters, joined by spaces. -/
def wordsCandidate (pdfString : List Char) : List Char :=
  joinSpace (wordList pdfString)

/-- `extractedText` after methods 1 and 2: the first candidate, followed, when
there is a text block, by a space and the second candidate. -/
def accumulatedText (pdfString : List Char) : List Char :=
  parenthesisCandidate pdfString ++
    (if (textBlocks pdfString).isEmpty then [] else ' ' :: blockCandidate pdfString)

/-- `extractedText` before the clean-up:
`if (words.length > extractedText.length) extractedText = words`. -/
def extractedText (pdfString : List Char) : List Char :=
  if (accumulatedText pdfString).length < (wordsCandidate pdfString).length
  then wordsCandidate pdfString
  else accumulatedText pdfString

/-- `cleanText`. -/
def cleanText (pdfString : List Char) : List Char :=
  (jsTrim (blankOthers (collapseSpaces (extractedText pdfString)))).take 3000

/-- An uploaded file: its name, its MIME type and its content decoded as UTF-8
(`none` when reading the file throws). -/
structure File where
  name : String
  type : String
  text : Option (List Char)
deriving DecidableEq, Repr

/-- The decoded identity token. -/
structure User where
  name : String
  email : String
  picture : String
  sub : String
deriving DecidableEq, Repr

/-- The component state (one field per `useState`, the quiz fields together). -/
structure App where
  resumeFile : Option File
  resumeText : List Char
  isLoading : Bool
  quiz : Quiz
  error : String
  referenceLoading : Bool
  user : Option User
  showLeaderboard : Bool
  leaderboard : List Server.Score
deriving DecidableEq

/-- The state when the component is mounted. -/
def App.initial : App :=
  { resumeFile := none, resumeText := [], isLoading := false, quiz := Client.initial,
    error := "", referenceLoading := false, user := none, showLeaderboard := false,
    leaderboard := [] }

/-- `onDrop(acceptedFiles)`.  `structureResumeText` (lines 27 to 145, the
labelled-section pass that returns its argument followed by the sections it
recognises) is an argument: it enters only as the value the text is set to. -/
def onDrop (structureResumeText : List Char → List Char) (s : App)
    (acceptedFiles : List File) : App :=
  match acceptedFiles.head? with
  | none => s
  | some file =>
    if file.type = "application/pdf" then
      match file.text with
      | none =>
        { s with resumeFile := some file,
                 error := "Failed to read the PDF file. Please try a different PDF file.",
                 resumeText := [] }
      | some pdfString =>
        if 50 < (cleanText pdfString).length then
          { s with resumeFile := some file,
                   resumeText := structureResumeText (cleanText pdfString),
                   error := "" }
        else
          { s with resumeFile := some file,
                   error := "Unable to extract readable text from this PDF. Please try a different PDF file.",
                   resumeText := [] }
    else
      { s with resumeFile := some file,
               error := "Please upload a PDF file. Only PDF files are supported.",
               resumeText := [] }

/-- `responseText.match(/\[[\s\S]*\]/)`, the text `jsonMatch[0]`: from the
first opening bracket to the last closing bracket after it; `none` is `null`. -/
def jsonMatch (responseText : List Char) : Option (List Char) :=
  match responseText.dropWhile (fun c => c != '[') with
  | [] => none
  | bracket :: rest =>
    if rest.contains ']' then
      some (bracket :: (rest.reverse.dropWhile (fun c => c != ']')).reverse)
    else none

/-- The state in which `generateMCQ` leaves a failed attempt. -/
def generationFailed (s : App) : App :=
  { s with error := "Failed to generate questions. Please try again.", isLoading := false }

/-- `generateMCQ`, from the click to the end of the `finally` block.  `parse`
is `JSON.parse` (`none` when it throws), `aiConfigured` says that the API
client exists, `response` is the text the external call returned (`none` when
the call throws). -/
def generateMCQ (parse : List Char → Option (List Question)) (aiConfigured : Bool)
    (s : App) (response : Option (List Char)) : App :=
  if (jsTrim s.resumeText).isEmpty then
    { s with error := "Please upload a resume first" }
  else if !aiConfigured then
    { s with error := "API key not configured. Please check your environment variables." }
  else
    match response with
    | none => generationFailed s
    | some responseText =>
      match jsonMatch responseText with
      | none => generationFailed s
      | some literal =>
        match parse literal with
        | none => generationFailed s
        | some questions =>
          { s with quiz := loadQuestions s.quiz questions, error := "", isLoading := false }

end Client

namespace Client

/-- The request body that the effect after a submission sends to
`POST /api/score` (`if (showResults && user)`), `none` when it sends nothing. -/
def scorePost (s : App) : Option Server.Body :=
  match s.user with
  | some user =>
    if s.quiz.showResults then
      some { name := some user.name, email := some user.email, picture := some user.picture,
             googleId := some user.sub, score := displayedScore s.quiz.score }
    else none
  | none => none

/-- What holds of the stored score in every reachable session: it is a number
between 0 and 100, and while the results are shown there is a question and the
score is the percentage computed from the matching answers. -/
structure Scored (s : Quiz) : Prop where
  defined : ∃ x : ℚ, s.score = some x ∧ 0 ≤ x ∧ x ≤ 100
  results : s.showResults = true →
    1 ≤ s.mcqQuestions.length ∧
    s.score = some (percentage (matchingCount s.mcqQuestions s.userAnswers)
                      s.mcqQuestions.length)

/-- `userAnswers[index] === mcqQuestions[index].correctAnswer`. -/
def answeredCorrectly (s : Quiz) (index : Nat) : Bool :=
  match s.mcqQuestions[index]? with
  | some q => decide ((answerAt s.userAnswers (index : Int)).map Int.ofNat = some q.correctAnswer)
  | none => false

/-- The "Correct Answers" count of the results view:
`mcqQuestions.filter((_, index) => ...).length`. -/
def correctShown (s : Quiz) : Nat :=
  (s.mcqQuestions.enum.filter (fun p => answeredCorrectly s p.1)).length

/-- The count the results view prints for a difficulty:
`mcqQuestions.filter(q => q.difficulty === tag).filter((_, index) => ...).length`,
where `index` is the position in the filtered list. -/
def shownForTag (tag : String) (s : Quiz) : Nat :=
  ((s.mcqQuestions.filter (fun q => q.difficulty == tag)).enum.filter
    (fun p => answeredCorrectly s p.1)).length

/-- The number of questions tagged `tag` whose recorded answer equals their
correct-option index. -/
def correctWithTag (tag : String) (s : Quiz) : Nat :=
  (s.mcqQuestions.enum.filter
    (fun p => p.2.difficulty == tag && answeredCorrectly s p.1)).length

end Client

namespace Server

/-! ### Example data -/

/-- The submission of `a@x.com` with the given score. -/
def submission (score : Int) : Body :=
  { name := some "Ada", email := some "a@x.com", picture := some "p.png",
    googleId := some "g-1", score := some score }

/-- The document stored for `a@x.com` with the given score and date. -/
def stored (score : Int) (date : Nat) : Score :=
  { name := some "Ada", email := some "a@x.com", picture := some "p.png",
    googleId := some "g-1", score := some score, date := date }

/-- A submission whose email field is present and is the empty string. -/
def emptyEmailSubmission : Body :=
  { name := some "Ada", email := some "", picture := none, googleId := none,
    score := some 40 }

end Server

namespace Client

/-- A question with four options, the first one correct. -/
def sampleQuestion : Question :=
  { question := "Which hook holds local state?",
    options := ["useState", "useMemo", "useRef", "useId"],
    correctAnswer := 0, difficulty := "easy", explanation := "useState" }

/-- Two questions, both answered, the pointer on the last one. -/
def answeredOnLast : List Event :=
  [Event.generate [sampleQuestion, sampleQuestion], Event.select 0, Event.next, Event.select 1]

/-- Two questions, both answered, the pointer back on the first one. -/
def answeredOnFirst : List Event :=
  answeredOnLast ++ [Event.previous]

end Client

namespace Client

/-- Fifteen questions whose correct option is the first one. -/
def fifteenQuestions : List Question :=
  List.replicate 15 sampleQuestion

/-- The answers of a session that picks the first option for the first
`correct` of fifteen questions and the second option for the others. -/
def answersWith (correct : Nat) : Answers :=
  (List.range 15).map (fun i => ((i : Int), if i < correct then 0 else 1))

/-- Fifteen questions, all answered, `correct` of them correctly, before the
submission. -/
def answeredFifteen (correct : Nat) : Quiz :=
  { mcqQuestions := fifteenQuestions, currentQuestionIndex := 14,
    userAnswers := answersWith correct, showResults := false, score := some 0 }

end Client

namespace Client

/-- A file named `cv.pdf` of type `application/pdf` with the given decoded
content. -/
def pdfOf (text : List Char) : File :=
  { name := "cv.pdf", type := "application/pdf", text := some text }

/-- A file named `notes.pdf` whose type is not `application/pdf`. -/
def plainTextFile : File :=
  { name := "notes.pdf", type := "text/plain", text := some "plain notes".toList }

/-- A PDF whose file cannot be read. -/
def unreadablePdf : File :=
  { name := "broken.pdf", type := "application/pdf", text := none }

/-- Fifty letters: the cleaned text recovered from them has 50 characters. -/
def fiftyLetters : List Char :=
  List.replicate 50 'a'

/-- Fifty-one letters. -/
def fiftyOneLetters : List Char :=
  List.replicate 51 'a'

/-- A decoded string on which methods 1 and 2 both find text. -/
def parenthesisedSample : List Char :=
  "(Hello World) trailing text here".toList

/-- The structuring pass used in the examples: it adds nothing. -/
def noSections (text : List Char) : List Char :=
  text

/-- The state after an earlier successful upload. -/
def afterUpload : App :=
  { App.initial with resumeFile := some (pdfOf fiftyOneLetters), resumeText := fiftyOneLetters }

end Client

namespace Client

/-- A parser that accepts the text `[]` only, as the empty question list.  On
the texts `[]` and `[] see [1]` it does what `JSON.parse` does. -/
def emptyArrayOnly (text : List Char) : Option (List Question) :=
  if text = "[]".toList then some [] else none

/-- A response in which a valid array is followed by text with brackets. -/
def arrayThenNote : List Char :=
  "[] see [1]".toList

/-- A response in which a valid array is surrounded by text without brackets. -/
def arrayInProse : List Char :=
  "Here you go: [] thanks".toList

end Client

namespace Client

/-- A question tagged medium, the first option correct. -/
def mediumQuestion : Question :=
  { question := "What does a reducer return?",
    options := ["the next state", "a promise", "a ref", "nothing"],
    correctAnswer := 0, difficulty := "medium", explanation := "the next state" }

/-- A medium question answered correctly, then an easy question answered
wrongly, then the submission. -/
def mediumThenEasy : List Event :=
  [Event.generate [mediumQuestion, sampleQuestion], Event.select 0, Event.next,
   Event.select 1, Event.submit]

/-- A signed-in identity. -/
def sampleUser : User :=
  { name := "Ada", email := "a@x.com", picture := "p.png", sub := "g-1" }

/-- The application after the two-question session was submitted by a signed-in
user. -/
def submittedApp : App :=
  { App.initial with quiz := run initial (answeredOnLast ++ [Event.submit]),
                     user := some sampleUser }

end Client

namespace Client

/-- The answers of a session over `total` questions that picks the first
option for the first `correct` of them and the second option for the others. -/
def answersOf (total correct : Nat) : Answers :=
  (List.range total).map (fun i => ((i : Int), if i < correct then 0 else 1))

/-- A session of `total` questions whose correct option is the first one, all
answered, `correct` of them correctly, before the submission. -/
def answeredOf (total correct : Nat) : Quiz :=
  { mcqQuestions := List.replicate total sampleQuestion,
    currentQuestionIndex := (total : Int) - 1,
    userAnswers := answersOf total correct, showResults := false, score := some 0 }

/-- Selecting an option for each of `remaining` questions from question `index`
on, the first option while `index < correct`, with Next after each. -/
def answerFrom (correct : Nat) : Nat → Nat → List Event
  | _, 0 => []
  | index, remaining + 1 =>
    Event.select (if index < correct then 0 else 1) :: Event.next ::
      answerFrom correct (index + 1) remaining

/-- Forty questions are generated and answered in order, the first 23 of them
correctly. -/
def fortyAnswered : List Event :=
  Event.generate (List.replicate 40 sampleQuestion) :: answerFrom 23 0 40

/-- The application after a signed-in user submitted that session. -/
def submittedForty : App :=
  { App.initial with quiz := run initial (fortyAnswered ++ [Event.submit]),
                     user := some sampleUser }

end Client

namespace Server

/-! ### The store under `POST /api/score` -/

theorem scoreLe_refl (a : Option Int) : scoreLe a a := by
  cases a <;> simp [scoreLe]

theorem scoreLe_trans {a b c : Option Int} (h₁ : scoreLe a b) (h₂ : scoreLe b c) :
    scoreLe a c := by
  cases a <;> cases b <;> cases c <;> simp_all [scoreLe]
  omega

theorem scoreLe_of_jsGt {a b : Option Int} (h : jsGt a b = true) : scoreLe b a := by
  cases a <;> cases b <;> simp_all [jsGt, scoreLe]
  omega

theorem overwrite_email (body : Body) (now : Nat) (x : Score) :
    (overwrite body now x).email = x.email := rfl

theorem findOne_email {store : Store} {e : String} {r : Score}
    (h : findOne store e = some r) : r.email = some e := by
  have := List.find?_some h
  simpa using this

theorem findOne_append_some {store : Store} {e : String} {r : Score}
    (h : findOne store e = some r) (extra : Store) :
    findOne (store ++ extra) e = some r := by
  unfold findOne at *
  rw [List.find?_append, h]
  rfl

theorem findOne_saveExisting_same {store : Store} {e : String} {r : Score}
    (f : Score → Score) (hf : ∀ x, (f x).email = x.email)
    (h : findOne store e = some r) :
    findOne (saveExisting e f store) e = some (f r) := by
  induction store with
  | nil => simp [findOne] at h
  | cons x xs ih =>
    unfold findOne at h ih ⊢
    by_cases hx : x.email = some e
    · simp [saveExisting, hx, List.find?_cons, hf] at h ⊢
      rw [h]
    · simp [saveExisting, hx, List.find?_cons] at h ⊢
      exact ih h

theorem findOne_saveExisting_other {e e' : String} (f : Score → Score)
    (hf : ∀ x, (f x).email = x.email) (hne : e' ≠ e) (store : Store) :
    findOne (saveExisting e f store) e' = findOne store e' := by
  induction store with
  | nil => rfl
  | cons x xs ih =>
    unfold findOne at ih ⊢
    by_cases hx : x.email = some e
    · have hx' : ¬ (some e = some e') := by
        intro h
        exact hne (Option.some.inj h).symm
      have hb : (e == e') = false := by simpa using hne.symm
      simp [saveExisting, hx, List.find?_cons, hf, hb]
    · by_cases hx2 : x.email = some e'
      · simp [saveExisting, hx2, hne, List.find?_cons]
      · simp [saveExisting, hx, hx2, List.find?_cons]
        exact ih

/-- The four outcomes of the handler, as equations. -/
theorem postScore_rejected (store : Store) (now : Nat) (body : Body)
    (h : emailFalsy body.email = true) :
    postScore store now body
      = (store, { status := 400, json := [("error", JVal.str "Email required")] }) := by
  simp [postScore, h]

theorem emailFalsy_some {e : String} (hne : e ≠ "") : emailFalsy (some e) = false := by
  simp [emailFalsy, hne]

theorem postScore_inserted (store : Store) (now : Nat) (body : Body) (e : String)
    (he : body.email = some e) (hne : e ≠ "") (hnone : findOne store e = none) :
    postScore store now body
      = (store ++ [{ name := body.name, email := some e, picture := body.picture,
                     googleId := body.googleId, score := body.score, date := now }],
         { status := 200, json := [("success", JVal.bool true), ("new", JVal.bool true)] }) := by
  simp [postScore, he, emailFalsy_some hne, hnone]

theorem postScore_updated (store : Store) (now : Nat) (body : Body) (e : String) (r : Score)
    (he : body.email = some e) (hne : e ≠ "") (hr : findOne store e = some r)
    (hgt : jsGt body.score r.score = true) :
    postScore store now body
      = (saveExisting e (overwrite body now) store,
         { status := 200,
           json := [("success", JVal.bool true), ("updated", JVal.bool true)] }) := by
  simp [postScore, he, emailFalsy_some hne, hr, hgt]

theorem postScore_ignored (store : Store) (now : Nat) (body : Body) (e : String) (r : Score)
    (he : body.email = some e) (hne : e ≠ "") (hr : findOne store e = some r)
    (hgt : jsGt body.score r.score = false) :
    postScore store now body
      = (store, { status := 200,
                  json := [("success", JVal.bool true), ("updated", JVal.bool false)] }) := by
  simp [postScore, he, emailFalsy_some hne, hr, hgt]

/-- One request never lowers the score found for an email. -/
theorem postScore_score_mono (store : Store) (now : Nat) (body : Body) (e : String)
    (r : Score) (h : findOne store e = some r) :
    ∃ r', findOne (postScore store now body).1 e = some r' ∧ scoreLe r.score r'.score := by
  by_cases hf : emailFalsy body.email = true
  · rw [postScore_rejected store now body hf]
    exact ⟨r, h, scoreLe_refl _⟩
  · cases hbe : body.email with
    | none => simp [emailFalsy, hbe] at hf
    | some e₀ =>
      have hne : e₀ ≠ "" := by
        intro h0
        simp [emailFalsy, hbe, h0] at hf
      cases hfind : findOne store e₀ with
      | none =>
        rw [postScore_inserted store now body e₀ hbe hne hfind]
        exact ⟨r, findOne_append_some h _, scoreLe_refl _⟩
      | some x =>
        cases hgt : jsGt body.score x.score with
        | false =>
          rw [postScore_ignored store now body e₀ x hbe hne hfind hgt]
          exact ⟨r, h, scoreLe_refl _⟩
        | true =>
          rw [postScore_updated store now body e₀ x hbe hne hfind hgt]
          by_cases hee : e = e₀
          · subst hee
            rw [h] at hfind
            cases hfind
            refine ⟨_, findOne_saveExisting_same (overwrite body now)
              (overwrite_email body now) h, ?_⟩
            exact scoreLe_of_jsGt hgt
          · refine ⟨r, ?_, scoreLe_refl _⟩
            exact (findOne_saveExisting_other (overwrite body now)
              (overwrite_email body now) hee store).trans h

theorem saveExisting_map_email (e : String) (f : Score → Score)
    (hf : ∀ x, (f x).email = x.email) (store : Store) :
    (saveExisting e f store).map (fun r => r.email) = store.map (fun r => r.email) := by
  induction store with
  | nil => rfl
  | cons x xs ih =>
    by_cases hx : x.email = some e
    · simp [saveExisting, hx, hf]
    · simp [saveExisting, hx, ih]

theorem saveExisting_length (e : String) (f : Score → Score) (store : Store) :
    (saveExisting e f store).length = store.length := by
  induction store with
  | nil => rfl
  | cons x xs ih =>
    by_cases hx : x.email = some e
    · simp [saveExisting, hx]
    · simp [saveExisting, hx, ih]

theorem findOne_none_not_mem {store : Store} {e : String} (h : findOne store e = none) :
    some e ∉ store.map (fun r => r.email) := by
  unfold findOne at h
  rw [List.find?_eq_none] at h
  intro hmem
  rcases List.mem_map.1 hmem with ⟨x, hx, hxe⟩
  exact h x hx (by simp [hxe])

/-- The first document with email `e` splits the store, and `save` rewrites
exactly that document. -/
theorem findOne_split {store : Store} {e : String} {r : Score}
    (h : findOne store e = some r) :
    ∃ before after, store = before ++ r :: after ∧ (∀ x ∈ before, x.email ≠ some e) ∧
      ∀ f : Score → Score, saveExisting e f store = before ++ f r :: after := by
  induction store with
  | nil => simp [findOne] at h
  | cons x xs ih =>
    unfold findOne at h ih
    by_cases hx : x.email = some e
    · simp [List.find?_cons, hx] at h
      subst h
      refine ⟨[], xs, rfl, ?_, ?_⟩
      · intro y hy
        cases hy
      · intro f
        simp [saveExisting, hx]
    · simp [List.find?_cons, hx] at h
      obtain ⟨before, after, hsplit, hbefore, hsave⟩ := ih h
      refine ⟨x :: before, after, by rw [hsplit]; rfl, ?_, ?_⟩
      · intro y hy
        rcases List.mem_cons.1 hy with rfl | hy
        · exact hx
        · exact hbefore y hy
      · intro f
        simp [saveExisting, hx, hsave f]

/-- One request keeps the emails of the collection pairwise distinct. -/
theorem postScore_nodup_emails (store : Store) (now : Nat) (body : Body)
    (h : (store.map (fun r => r.email)).Nodup) :
    ((postScore store now body).1.map (fun r => r.email)).Nodup := by
  by_cases hf : emailFalsy body.email = true
  · rw [postScore_rejected store now body hf]
    exact h
  · cases hbe : body.email with
    | none => simp [emailFalsy, hbe] at hf
    | some e₀ =>
      have hne : e₀ ≠ "" := by
        intro h0
        simp [emailFalsy, hbe, h0] at hf
      cases hfind : findOne store e₀ with
      | none =>
        rw [postScore_inserted store now body e₀ hbe hne hfind]
        have hnot := findOne_none_not_mem hfind
        simp only [List.map_append, List.map_cons, List.map_nil]
        rw [List.nodup_append]
        refine ⟨h, List.nodup_singleton _, ?_⟩
        intro a ha hb
        rw [List.mem_singleton] at hb
        subst hb
        exact hnot ha
      | some x =>
        cases hgt : jsGt body.score x.score with
        | false =>
          rw [postScore_ignored store now body e₀ x hbe hne hfind hgt]
          exact h
        | true =>
          rw [postScore_updated store now body e₀ x hbe hne hfind hgt]
          dsimp only
          rw [saveExisting_map_email e₀ (overwrite body now) (overwrite_email body now)]
          exact h

theorem postAll_nodup_emails (reqs : List (Nat × Body)) :
    ∀ store : Store, (store.map (fun r => r.email)).Nodup →
      ((postAll store reqs).map (fun r => r.email)).Nodup := by
  induction reqs with
  | nil => intro store h; exact h
  | cons q rest ih =>
    intro store h
    obtain ⟨now, body⟩ := q
    exact ih _ (postScore_nodup_emails store now body h)

end Server

namespace Server

/-! ### The order of the leaderboard -/

theorem ranksBefore_total (a b : Score) :
    ranksBefore a b = true ∨ ranksBefore b a = true := by
  obtain ⟨_, _, _, _, sa, da⟩ := a
  obtain ⟨_, _, _, _, sb, db⟩ := b
  cases sa <;> cases sb <;> simp [ranksBefore, scoreLt] <;> omega

theorem ranksBefore_trans {a b c : Score}
    (hab : ranksBefore a b = true) (hbc : ranksBefore b c = true) :
    ranksBefore a c = true := by
  obtain ⟨_, _, _, _, sa, da⟩ := a
  obtain ⟨_, _, _, _, sb, db⟩ := b
  obtain ⟨_, _, _, _, sc, dc⟩ := c
  cases sa <;> cases sb <;> cases sc <;> simp [ranksBefore, scoreLt] at hab hbc ⊢ <;> omega

/-- What `ranksBefore a b` says about the two sort keys. -/
theorem ranksBefore_iff (a b : Score) :
    ranksBefore a b = true ↔
      scoreLt b.score a.score = true ∨ (a.score = b.score ∧ a.date ≤ b.date) := by
  simp [ranksBefore]

theorem scoreLt_irrefl (s : Option Int) : scoreLt s s = false := by
  cases s <;> simp [scoreLt]

theorem insertRanked_perm (a : Score) (l : List Score) :
    (insertRanked a l).Perm (a :: l) := by
  induction l with
  | nil => exact List.Perm.refl _
  | cons b rest ih =>
    by_cases h : ranksBefore a b = true
    · rw [insertRanked, if_pos h]
    · rw [insertRanked, if_neg h]
      exact ((List.Perm.cons b ih).trans (List.Perm.swap a b rest))

theorem sortRanked_perm (l : List Score) : (sortRanked l).Perm l := by
  induction l with
  | nil => exact List.Perm.refl _
  | cons a rest ih =>
    exact (insertRanked_perm a (sortRanked rest)).trans (List.Perm.cons a ih)

theorem insertRanked_pairwise (a : Score) (l : List Score)
    (h : l.Pairwise (fun x y => ranksBefore x y = true)) :
    (insertRanked a l).Pairwise (fun x y => ranksBefore x y = true) := by
  induction l with
  | nil => simp [insertRanked]
  | cons b rest ih =>
    rw [List.pairwise_cons] at h
    by_cases hab : ranksBefore a b = true
    · rw [insertRanked, if_pos hab, List.pairwise_cons]
      refine ⟨?_, List.pairwise_cons.2 h⟩
      intro x hx
      rcases List.mem_cons.1 hx with rfl | hx
      · exact hab
      · exact ranksBefore_trans hab (h.1 x hx)
    · rw [insertRanked, if_neg hab, List.pairwise_cons]
      refine ⟨?_, ih h.2⟩
      intro x hx
      have hx' : x ∈ a :: rest := (insertRanked_perm a rest).mem_iff.1 hx
      rcases List.mem_cons.1 hx' with rfl | hx'
      · rcases ranksBefore_total x b with hxb | hbx
        · exact absurd hxb hab
        · exact hbx
      · exact h.1 x hx'

theorem sortRanked_pairwise (l : List Score) :
    (sortRanked l).Pairwise (fun x y => ranksBefore x y = true) := by
  induction l with
  | nil => exact List.Pairwise.nil
  | cons a rest ih => exact insertRanked_pairwise a _ ih

end Server

namespace Server

/-! ### Best score per email -/

theorem findOne_append_none {store : Store} {e : String} (h : findOne store e = none)
    (extra : Store) : findOne (store ++ extra) e = findOne extra e := by
  unfold findOne at *
  rw [List.find?_append, h]
  rfl

theorem mem_saveExisting {e : String} {f : Score → Score} {store : Store} {x : Score}
    (h : x ∈ saveExisting e f store) : x ∈ store ∨ ∃ r ∈ store, x = f r := by
  induction store with
  | nil => simp [saveExisting] at h
  | cons y ys ih =>
    by_cases hy : y.email = some e
    · simp only [saveExisting, hy, beq_self_eq_true, if_true, List.mem_cons] at h
      rcases h with h | h
      · exact Or.inr ⟨y, List.mem_cons_self _ _, h⟩
      · exact Or.inl (List.mem_cons_of_mem _ h)
    · have hb : (y.email == some e) = false := by simpa using hy
      simp only [saveExisting, hb, Bool.false_eq_true, if_false, List.mem_cons] at h
      rcases h with h | h
      · exact Or.inl (h ▸ List.mem_cons_self _ _)
      · rcases ih h with h | ⟨r, hr, hx⟩
        · exact Or.inl (List.mem_cons_of_mem _ h)
        · exact Or.inr ⟨r, List.mem_cons_of_mem _ hr, hx⟩

theorem findOne_mem {store : Store} {e : String} {r : Score}
    (h : findOne store e = some r) : r ∈ store :=
  List.mem_of_find?_eq_some h

/-- One request with a non-empty email and a numeric score keeps every stored
score numeric. -/
theorem postScore_numeric (store : Store) (now : Nat) (body : Body) (e₀ : String) (t : Int)
    (he : body.email = some e₀) (hne : e₀ ≠ "") (ht : body.score = some t)
    (hnum : ∀ r ∈ store, r.score ≠ none) :
    ∀ r ∈ (postScore store now body).1, r.score ≠ none := by
  cases hfind : findOne store e₀ with
  | none =>
    rw [postScore_inserted store now body e₀ he hne hfind]
    intro r hr
    rcases List.mem_append.1 hr with hr | hr
    · exact hnum r hr
    · rw [List.mem_singleton] at hr
      rw [hr]
      simp [ht]
  | some x =>
    cases hgt : jsGt body.score x.score with
    | false =>
      rw [postScore_ignored store now body e₀ x he hne hfind hgt]
      exact hnum
    | true =>
      rw [postScore_updated store now body e₀ x he hne hfind hgt]
      intro r hr
      rcases mem_saveExisting hr with hr | ⟨y, _, hy⟩
      · exact hnum r hr
      · rw [hy]
        simp [overwrite, ht]

/-- The score stored for an email after one request with a non-empty email and
a numeric score. -/
theorem storedScore_postScore (store : Store) (now : Nat) (body : Body) (e₀ : String)
    (t : Int) (he : body.email = some e₀) (hne : e₀ ≠ "") (ht : body.score = some t)
    (hnum : ∀ r ∈ store, r.score ≠ none) (e : String) :
    storedScore (postScore store now body).1 e
      = if e = e₀ then some (better (storedScore store e₀) t) else storedScore store e := by
  cases hfind : findOne store e₀ with
  | none =>
    rw [postScore_inserted store now body e₀ he hne hfind]
    by_cases hee : e = e₀
    · subst hee
      simp only [storedScore, if_true]
      rw [findOne_append_none hfind, hfind]
      simp [findOne, better, ht]
    · simp only [hee, if_false, storedScore]
      cases hfe : findOne store e with
      | none =>
        rw [findOne_append_none hfe]
        have hb : (some e₀ == some e) = false := by
          simpa using fun h : e₀ = e => hee h.symm
        simp [findOne, hb]
      | some r => rw [findOne_append_some hfe]
  | some x =>
    obtain ⟨s, hs⟩ : ∃ s, x.score = some s := by
      cases hx : x.score with
      | none => exact absurd hx (hnum x (findOne_mem hfind))
      | some s => exact ⟨s, rfl⟩
    cases hgt : jsGt body.score x.score with
    | false =>
      rw [postScore_ignored store now body e₀ x he hne hfind hgt]
      by_cases hee : e = e₀
      · subst hee
        have hle : t ≤ s := by
          simpa [jsGt, ht, hs] using hgt
        simp [storedScore, hfind, hs, better, max_eq_left hle]
      · simp [hee]
    | true =>
      rw [postScore_updated store now body e₀ x he hne hfind hgt]
      by_cases hee : e = e₀
      · subst hee
        have hlt : s < t := by
          simpa [jsGt, ht, hs] using hgt
        simp only [storedScore, if_true]
        rw [findOne_saveExisting_same (overwrite body now) (overwrite_email body now) hfind,
          hfind]
        simp [overwrite, ht, hs, better, max_eq_right (le_of_lt hlt)]
      · simp only [hee, if_false, storedScore]
        rw [findOne_saveExisting_other (overwrite body now) (overwrite_email body now) hee]

/-- The score stored for an email after a sequence of requests that all carry
a non-empty email and a numeric score. -/
theorem storedScore_postAll (reqs : List (Nat × Body)) :
    ∀ store : Store,
      (∀ q ∈ reqs, ∃ e t, q.2.email = some e ∧ e ≠ "" ∧ q.2.score = some t) →
      (∀ r ∈ store, r.score ≠ none) →
      ∀ e : String, storedScore (postAll store reqs) e
        = bestAfter (storedScore store e) (submittedScores reqs e) := by
  induction reqs with
  | nil =>
    intro store _ _ e
    rfl
  | cons q rest ih =>
    intro store hvalid hnum e
    obtain ⟨now, body⟩ := q
    obtain ⟨e₀, t, he', hne, ht'⟩ := hvalid (now, body) (List.mem_cons_self _ _)
    have he : body.email = some e₀ := he'
    have ht : body.score = some t := ht'
    have hrest : ∀ q ∈ rest, ∃ e t, q.2.email = some e ∧ e ≠ "" ∧ q.2.score = some t :=
      fun q hq => hvalid q (List.mem_cons_of_mem _ hq)
    have hnum' := postScore_numeric store now body e₀ t he hne ht hnum
    have hstep := storedScore_postScore store now body e₀ t he hne ht hnum e
    show storedScore (postAll (postScore store now body).1 rest) e = _
    rw [ih _ hrest hnum' e, hstep]
    by_cases hee : e = e₀
    · subst hee
      simp [submittedScores, List.filterMap_cons, he, ht, bestAfter]
    · have hne' : ¬ (some e₀ = some e) := fun h => hee (Option.some.inj h).symm
      simp [submittedScores, List.filterMap_cons, he, hee, hne']

/-- A fold of `better` ends on the largest score seen. -/
theorem bestAfter_is_max (scores : List Int) :
    ∀ held : Option Int, (scores ≠ [] ∨ held ≠ none) →
      ∃ m, bestAfter held scores = some m ∧ (m ∈ scores ∨ held = some m) ∧
        (∀ t ∈ scores, t ≤ m) ∧ (∀ s, held = some s → s ≤ m) := by
  induction scores with
  | nil =>
    intro held h
    rcases h with h | h
    · exact absurd rfl h
    · cases held with
      | none => exact absurd rfl h
      | some s =>
        refine ⟨s, rfl, Or.inr rfl, ?_, ?_⟩
        · intro t ht
          cases ht
        · intro s' hs'
          cases hs'
          exact le_refl _
  | cons t rest ih =>
    intro held _
    obtain ⟨m, hm, hmem, hall, hheld⟩ := ih (some (better held t)) (Or.inr (by simp))
    have hbt : better held t ≤ m := hheld _ rfl
    have ht_le : t ≤ better held t := by
      cases held with
      | none => exact le_refl _
      | some s => exact le_max_right _ _
    refine ⟨m, hm, ?_, ?_, ?_⟩
    · rcases hmem with hmem | hmem
      · exact Or.inl (List.mem_cons_of_mem _ hmem)
      · have hm' : better held t = m := Option.some.inj hmem
        cases held with
        | none =>
          left
          rw [← hm']
          exact List.mem_cons_self _ _
        | some s =>
          simp only [better] at hm'
          rcases max_choice s t with hc | hc
          · right
            rw [← hm', hc]
          · left
            rw [← hm', hc]
            exact List.mem_cons_self _ _
    · intro x hx
      rcases List.mem_cons.1 hx with rfl | hx
      · exact le_trans ht_le hbt
      · exact hall x hx
    · intro s hs
      subst hs
      exact le_trans (le_max_left _ _) hbt

end Server

namespace Server

/-! ### Claims about `POST /api/score` -/

/-- C1. For every store and every sequence of `POST /api/score` requests
processed one after another, the score stored for an email never decreases:
the score found for `e` after the requests is not lower than the score found
for `e` before them.  A single request is the sequence of length one. -/
theorem stored_score_never_decreases (reqs : List (Nat × Body)) :
    ∀ (store : Store) (e : String) (r : Score), findOne store e = some r →
      ∃ r', findOne (postAll store reqs) e = some r' ∧ scoreLe r.score r'.score := by
  induction reqs with
  | nil =>
    intro store e r h
    exact ⟨r, h, scoreLe_refl _⟩
  | cons q rest ih =>
    intro store e r h
    obtain ⟨now, body⟩ := q
    obtain ⟨r₁, h₁, hle₁⟩ := postScore_score_mono store now body e r h
    obtain ⟨r₂, h₂, hle₂⟩ := ih _ e r₁ h₁
    exact ⟨r₂, h₂, scoreLe_trans hle₁ hle₂⟩

/-- Witness of C1: `a@x.com` holds 40, then submits 70 and 55. -/
theorem stored_score_never_decreases_witness :
    findOne [stored 40 1] "a@x.com" = some (stored 40 1) ∧
    ∃ r', findOne (postAll [stored 40 1] [(2, submission 70), (3, submission 55)]) "a@x.com"
        = some r' ∧ scoreLe (stored 40 1).score r'.score :=
  ⟨by decide,
   stored_score_never_decreases [(2, submission 70), (3, submission 55)]
     [stored 40 1] "a@x.com" (stored 40 1) (by decide)⟩

/-- C2. Starting from the empty store, after any sequence of `POST /api/score`
requests the emails of the stored records are pairwise distinct (at most one
record per email); and in any store, a request for an email that already has a
record does not change the number of records. -/
theorem at_most_one_record_per_email (reqs : List (Nat × Body)) :
    ((postAll [] reqs).map (fun r => r.email)).Nodup ∧
    ∀ (store : Store) (now : Nat) (body : Body) (e : String) (r : Score),
      body.email = some e → findOne store e = some r →
        (postScore store now body).1.length = store.length := by
  refine ⟨postAll_nodup_emails reqs [] List.nodup_nil, ?_⟩
  intro store now body e r he hr
  by_cases hne : e = ""
  · rw [postScore_rejected store now body (by simp [he, hne, emailFalsy])]
  · cases hgt : jsGt body.score r.score with
    | false => rw [postScore_ignored store now body e r he hne hr hgt]
    | true =>
      rw [postScore_updated store now body e r he hne hr hgt]
      exact saveExisting_length _ _ _

/-- C3. For every store that holds no record for the email `e` and every
submission in which `e` is present (it passes the handler's `!email` test: a
non-empty string), the request appends exactly one record with the
submitted name, email, picture, identity id and score, dated now, keeps every
existing record, and responds `{success: true, new: true}`. -/
theorem post_new_email_inserts (store : Store) (now : Nat) (body : Body) (e : String)
    (he : body.email = some e) (hne : e ≠ "") (hnone : findOne store e = none) :
    postScore store now body
      = (store ++ [{ name := body.name, email := some e, picture := body.picture,
                     googleId := body.googleId, score := body.score, date := now }],
         { status := 200, json := [("success", JVal.bool true), ("new", JVal.bool true)] }) :=
  postScore_inserted store now body e he hne hnone

/-- Witness of C3: `a@x.com` submits 40 to the empty store. -/
theorem post_new_email_inserts_witness :
    (submission 40).email = some "a@x.com" ∧ "a@x.com" ≠ "" ∧ findOne [] "a@x.com" = none ∧
    postScore [] 7 (submission 40)
      = ([] ++ [{ name := (submission 40).name, email := some "a@x.com",
                  picture := (submission 40).picture, googleId := (submission 40).googleId,
                  score := (submission 40).score, date := 7 }],
         { status := 200, json := [("success", JVal.bool true), ("new", JVal.bool true)] }) :=
  ⟨by decide, by decide, by decide,
   post_new_email_inserts [] 7 (submission 40) "a@x.com" (by decide) (by decide) (by decide)⟩

/-- C4. For every store holding a record `r` for the (non-empty) email `e` with
stored score `s` and every submission for `e` with a score `t > s`, the request
rewrites that record in place: score, name, picture and identity id become the
submitted values, the date becomes now, the email is kept; every other record
keeps its place and content; the response is `{success: true, updated: true}`. -/
theorem post_higher_score_updates (store : Store) (now : Nat) (body : Body) (e : String)
    (r : Score) (s t : Int)
    (he : body.email = some e) (hne : e ≠ "") (hr : findOne store e = some r)
    (hs : r.score = some s) (ht : body.score = some t) (hlt : s < t) :
    ∃ before after, store = before ++ r :: after ∧ (∀ x ∈ before, x.email ≠ some e) ∧
      (postScore store now body).1
        = before ++ { name := body.name, email := r.email, picture := body.picture,
                      googleId := body.googleId, score := some t, date := now } :: after ∧
      r.email = some e ∧
      (postScore store now body).2
        = { status := 200,
            json := [("success", JVal.bool true), ("updated", JVal.bool true)] } := by
  have hgt : jsGt body.score r.score = true := by
    simp [hs, ht, jsGt, hlt]
  obtain ⟨before, after, hsplit, hbefore, hsave⟩ := findOne_split hr
  refine ⟨before, after, hsplit, hbefore, ?_, findOne_email hr, ?_⟩
  · rw [postScore_updated store now body e r he hne hr hgt]
    dsimp only
    rw [hsave (overwrite body now)]
    simp [overwrite, ht]
  · rw [postScore_updated store now body e r he hne hr hgt]

/-- Witness of C4: stored 40, submitted 70. -/
theorem post_higher_score_updates_witness :
    (submission 70).email = some "a@x.com" ∧ "a@x.com" ≠ "" ∧
    findOne [stored 40 1] "a@x.com" = some (stored 40 1) ∧
    (stored 40 1).score = some 40 ∧ (submission 70).score = some 70 ∧ (40 : Int) < 70 ∧
    ∃ before after, [stored 40 1] = before ++ stored 40 1 :: after ∧
      (∀ x ∈ before, x.email ≠ some "a@x.com") ∧
      (postScore [stored 40 1] 2 (submission 70)).1
        = before ++ { name := (submission 70).name, email := (stored 40 1).email,
                      picture := (submission 70).picture,
                      googleId := (submission 70).googleId,
                      score := some 70, date := 2 } :: after ∧
      (stored 40 1).email = some "a@x.com" ∧
      (postScore [stored 40 1] 2 (submission 70)).2
        = { status := 200,
            json := [("success", JVal.bool true), ("updated", JVal.bool true)] } :=
  ⟨by decide, by decide, by decide, by decide, by decide, by decide,
   post_higher_score_updates [stored 40 1] 2 (submission 70) "a@x.com" (stored 40 1) 40 70
     (by decide) (by decide) (by decide) (by decide) (by decide) (by decide)⟩

/-- C5. For every store holding a record for the (non-empty) email `e` with
stored score `s` and every submission for `e` with a score `t ≤ s` (below or
equal), the request leaves the whole store unchanged, so the record keeps its
name, picture, score and date, and responds `{success: true, updated: false}`. -/
theorem post_lower_or_equal_score_ignored (store : Store) (now : Nat) (body : Body)
    (e : String) (r : Score) (s t : Int)
    (he : body.email = some e) (hne : e ≠ "") (hr : findOne store e = some r)
    (hs : r.score = some s) (ht : body.score = some t) (hle : t ≤ s) :
    postScore store now body
      = (store, { status := 200,
                  json := [("success", JVal.bool true), ("updated", JVal.bool false)] }) ∧
    findOne (postScore store now body).1 e = some r := by
  have hgt : jsGt body.score r.score = false := by
    simp [hs, ht, jsGt, hle]
  rw [postScore_ignored store now body e r he hne hr hgt]
  exact ⟨rfl, hr⟩

/-- Witness of C5: stored 70, submitted 55, the record still shows 70. -/
theorem post_lower_or_equal_score_ignored_witness :
    (submission 55).email = some "a@x.com" ∧ "a@x.com" ≠ "" ∧
    findOne [stored 70 2] "a@x.com" = some (stored 70 2) ∧
    (stored 70 2).score = some 70 ∧ (submission 55).score = some 55 ∧ (55 : Int) ≤ 70 ∧
    postScore [stored 70 2] 3 (submission 55)
      = ([stored 70 2],
         { status := 200,
           json := [("success", JVal.bool true), ("updated", JVal.bool false)] }) ∧
    findOne (postScore [stored 70 2] 3 (submission 55)).1 "a@x.com" = some (stored 70 2) :=
  ⟨by decide, by decide, by decide, by decide, by decide, by decide,
   post_lower_or_equal_score_ignored [stored 70 2] 3 (submission 55) "a@x.com" (stored 70 2)
     70 55 (by decide) (by decide) (by decide) (by decide) (by decide) (by decide)⟩

/-- C6, as stated, fails: a body whose email is present but is the empty
string is rejected with status 400. -/
theorem post_empty_email_rejected :
    emptyEmailSubmission.email = some "" ∧ emptyEmailSubmission.email ≠ none ∧
    postScore [] 1 emptyEmailSubmission
      = ([], { status := 400, json := [("error", JVal.str "Email required")] }) := by
  decide

/-- C6, amended. For every store, a body whose email is absent or the empty
string gets status 400 with the error body and leaves the store unchanged; a
body whose email is a non-empty string is never rejected, whatever the other
fields are: the status is 200 and the body carries `success: true`. -/
theorem post_rejects_exactly_missing_email (store : Store) (now : Nat) (body : Body) :
    ((body.email = none ∨ body.email = some "") →
      postScore store now body
        = (store, { status := 400, json := [("error", JVal.str "Email required")] })) ∧
    (∀ e, body.email = some e → e ≠ "" →
      (postScore store now body).2.status = 200 ∧
      ("success", JVal.bool true) ∈ (postScore store now body).2.json) := by
  constructor
  · intro h
    apply postScore_rejected
    rcases h with h | h <;> simp [h, emailFalsy]
  · intro e he hne
    cases hfind : findOne store e with
    | none =>
      rw [postScore_inserted store now body e he hne hfind]
      simp
    | some r =>
      cases hgt : jsGt body.score r.score with
      | false =>
        rw [postScore_ignored store now body e r he hne hfind hgt]
        simp
      | true =>
        rw [postScore_updated store now body e r he hne hfind hgt]
        simp

end Server


namespace Server

/-- C22. Starting from the empty store, after any sequence of
`POST /api/score` requests that each carry an email (one that passes the
handler's `!email` test) and a numeric score, the score stored for each email
`e` that was submitted is the maximum of the scores submitted for `e`: it is
one of them and none of them is larger. -/
theorem stored_score_is_best_submitted (reqs : List (Nat × Body)) (e : String)
    (hvalid : ∀ q ∈ reqs, ∃ e t, q.2.email = some e ∧ e ≠ "" ∧ q.2.score = some t)
    (hsubmitted : ∃ q ∈ reqs, q.2.email = some e) :
    ∃ r m, findOne (postAll [] reqs) e = some r ∧ r.score = some m ∧
      m ∈ submittedScores reqs e ∧ ∀ t ∈ submittedScores reqs e, t ≤ m := by
  have hstored := storedScore_postAll reqs [] hvalid (fun r hr => by cases hr) e
  have hnonempty : submittedScores reqs e ≠ [] := by
    obtain ⟨q, hq, hqe⟩ := hsubmitted
    obtain ⟨e', t, he', _, ht⟩ := hvalid q hq
    have hmem : t ∈ submittedScores reqs e := by
      unfold submittedScores
      rw [List.mem_filterMap]
      exact ⟨q, hq, by simp [hqe, ht]⟩
    intro hnil
    rw [hnil] at hmem
    cases hmem
  obtain ⟨m, hm, hmem, hall, _⟩ := bestAfter_is_max (submittedScores reqs e)
    (storedScore [] e) (Or.inl hnonempty)
  have hmem' : m ∈ submittedScores reqs e := by
    rcases hmem with h | h
    · exact h
    · simp [storedScore, findOne] at h
  rw [hm] at hstored
  unfold storedScore at hstored
  cases hfind : findOne (postAll [] reqs) e with
  | none =>
    rw [hfind] at hstored
    cases hstored
  | some r =>
    rw [hfind] at hstored
    exact ⟨r, m, rfl, hstored, hmem', hall⟩

/-- Witness of C22: `a@x.com` submits 40, 70 and 55; 70 is stored. -/
theorem stored_score_is_best_submitted_witness :
    (∀ q ∈ [(1, submission 40), (2, submission 70), (3, submission 55)],
      ∃ e t, q.2.email = some e ∧ e ≠ "" ∧ q.2.score = some t) ∧
    (∃ q ∈ [(1, submission 40), (2, submission 70), (3, submission 55)],
      q.2.email = some "a@x.com") ∧
    findOne (postAll [] [(1, submission 40), (2, submission 70), (3, submission 55)]) "a@x.com"
      = some (stored 70 2) ∧
    ∃ r m, findOne (postAll [] [(1, submission 40), (2, submission 70), (3, submission 55)])
        "a@x.com" = some r ∧ r.score = some m ∧
      m ∈ submittedScores [(1, submission 40), (2, submission 70), (3, submission 55)] "a@x.com" ∧
      ∀ t ∈ submittedScores [(1, submission 40), (2, submission 70), (3, submission 55)]
        "a@x.com", t ≤ m :=
  have hvalid : ∀ q ∈ [(1, submission 40), (2, submission 70), (3, submission 55)],
      ∃ e t, q.2.email = some e ∧ e ≠ "" ∧ q.2.score = some t := by
    intro q hq
    simp only [List.mem_cons, List.mem_singleton, List.mem_nil_iff, or_false] at hq
    rcases hq with rfl | rfl | rfl
    · exact ⟨"a@x.com", 40, rfl, by decide, rfl⟩
    · exact ⟨"a@x.com", 70, rfl, by decide, rfl⟩
    · exact ⟨"a@x.com", 55, rfl, by decide, rfl⟩
  have hsubmitted : ∃ q ∈ [(1, submission 40), (2, submission 70), (3, submission 55)],
      q.2.email = some "a@x.com" :=
    ⟨(1, submission 40), List.mem_cons_self _ _, rfl⟩
  ⟨hvalid, hsubmitted, by decide,
   stored_score_is_best_submitted [(1, submission 40), (2, submission 70), (3, submission 55)]
     "a@x.com" hvalid hsubmitted⟩

end Server
namespace Server

/-! ### Claims about `GET /api/leaderboard` -/

/-- C7. For every store, the leaderboard has at most 10 records; each record's
score is greater than or equal to the next record's score, and where two
adjacent records have equal scores the earlier date comes first. -/
theorem leaderboard_at_most_ten_sorted (store : Store) :
    (leaderboard store).length ≤ 10 ∧
    List.Chain'
      (fun a b => (scoreLt b.score a.score = true ∨ a.score = b.score) ∧
                  (a.score = b.score → a.date ≤ b.date))
      (leaderboard store) := by
  constructor
  · simp [leaderboard, List.length_take]
  · have hsorted : (leaderboard store).Pairwise (fun x y => ranksBefore x y = true) :=
      (sortRanked_pairwise store).sublist (List.take_sublist 10 _)
    refine (List.Pairwise.chain' hsorted).imp ?_
    intro a b hab
    rcases (ranksBefore_iff a b).1 hab with hlt | ⟨heq, hdate⟩
    · refine ⟨Or.inl hlt, ?_⟩
      intro heq
      rw [heq, scoreLt_irrefl] at hlt
      cases hlt
    · exact ⟨Or.inr heq, fun _ => hdate⟩

/-- C8. For every store with `n` records, the leaderboard has exactly
`min 10 n` records, all of them records of the store, and every stored record
left out ranks no higher than every returned record (lower score, or equal
score and later-or-equal date): the store is the returned records together
with the records left out. -/
theorem leaderboard_is_top_ten (store : Store) :
    (leaderboard store).length = min 10 store.length ∧
    (∀ y ∈ leaderboard store, y ∈ store) ∧
    ∃ rest : List Score, store.Perm (leaderboard store ++ rest) ∧
      ∀ y ∈ leaderboard store, ∀ x ∈ rest,
        scoreLt x.score y.score = true ∨ (y.score = x.score ∧ y.date ≤ x.date) := by
  refine ⟨?_, ?_, ?_⟩
  · simp [leaderboard, List.length_take, (sortRanked_perm store).length_eq]
  · intro y hy
    exact (sortRanked_perm store).mem_iff.1 (List.mem_of_mem_take hy)
  · refine ⟨(sortRanked store).drop 10, ?_, ?_⟩
    · unfold leaderboard
      rw [List.take_append_drop]
      exact (sortRanked_perm store).symm
    · intro y hy x hx
      have hsorted := sortRanked_pairwise store
      rw [← List.take_append_drop 10 (sortRanked store), List.pairwise_append] at hsorted
      exact (ranksBefore_iff y x).1 (hsorted.2.2 y hy x hx)

end Server

namespace Client

/-! ### Invariants of the quiz session -/

theorem answerAt_isSome_iff (answers : Answers) (i : Int) :
    (answerAt answers i).isSome = true ↔ i ∈ answers.map Prod.fst := by
  unfold answerAt
  induction answers with
  | nil => simp
  | cons kv rest ih =>
    obtain ⟨k, v⟩ := kv
    by_cases h : i = k
    · subst h
      simp [List.lookup]
    · have hb : (i == k) = false := by simpa using h
      simp [List.lookup, hb, ih, h]

theorem mem_keys_iff (answers : Answers) (i : Int) :
    i ∈ keys answers ↔ i ∈ answers.map Prod.fst := by
  simp [keys]

theorem nodup_keys (answers : Answers) : (keys answers).Nodup :=
  List.nodup_dedup _

/-- The keys after an assignment are the new key and keys that were there. -/
theorem mem_assign_keys {prev : Answers} {i k : Int} {o : Nat}
    (h : k ∈ (assign prev i o).map Prod.fst) : k = i ∨ k ∈ prev.map Prod.fst := by
  simp only [assign, List.map_cons, List.mem_cons] at h
  rcases h with h | h
  · exact Or.inl h
  · right
    rcases List.mem_map.1 h with ⟨kv, hkv, rfl⟩
    exact List.mem_map.2 ⟨kv, (List.mem_filter.1 hkv).1, rfl⟩

/-- Distinct keys below `n`, at least `n` of them, are all of `0 .. n-1`. -/
theorem covers_of_length_ge (ks : List Int) (n : Nat) (hnd : ks.Nodup)
    (hrange : ∀ k ∈ ks, 0 ≤ k ∧ k < (n : Int)) (hlen : n ≤ ks.length) :
    ∀ i : Nat, i < n → (i : Int) ∈ ks := by
  have hsub : ks.toFinset ⊆ Finset.Ico (0 : Int) n := by
    intro k hk
    rw [List.mem_toFinset] at hk
    rw [Finset.mem_Ico]
    exact hrange k hk
  have hcard : (Finset.Ico (0 : Int) n).card ≤ ks.toFinset.card := by
    rw [List.toFinset_card_of_nodup hnd, Int.card_Ico]
    simpa using hlen
  have heq := Finset.eq_of_subset_of_card_le hsub hcard
  intro i hi
  have hmem : (i : Int) ∈ Finset.Ico (0 : Int) n := by
    rw [Finset.mem_Ico]
    omega
  rw [← heq, List.mem_toFinset] at hmem
  exact hmem

/-- Distinct keys below `n` are at most `n`. -/
theorem length_le_of_range (ks : List Int) (n : Nat) (hnd : ks.Nodup)
    (hrange : ∀ k ∈ ks, 0 ≤ k ∧ k < (n : Int)) : ks.length ≤ n := by
  have hsub : ks.toFinset ⊆ Finset.Ico (0 : Int) n := by
    intro k hk
    rw [List.mem_toFinset] at hk
    rw [Finset.mem_Ico]
    exact hrange k hk
  have hcard := Finset.card_le_card hsub
  rw [List.toFinset_card_of_nodup hnd, Int.card_Ico] at hcard
  simpa using hcard

theorem allAnswered_iff (s : Quiz) :
    allAnswered s = true ↔
      ∀ i : Nat, i < s.mcqQuestions.length → (i : Int) ∈ s.userAnswers.map Prod.fst := by
  unfold allAnswered
  rw [List.all_eq_true]
  constructor
  · intro h i hi
    exact (answerAt_isSome_iff _ _).1 (h i (List.mem_range.2 hi))
  · intro h i hi
    exact (answerAt_isSome_iff _ _).2 (h i (List.mem_range.1 hi))

theorem quizVisible_iff (s : Quiz) :
    quizVisible s = true ↔ 0 < s.mcqQuestions.length ∧ s.showResults = false := by
  simp [quizVisible]

/-- In a state satisfying the invariant, an enabled Submit Quiz means that
every question has an answer. -/
theorem allAnswered_of_submitEnabled {s : Quiz} (hinv : Inv s)
    (h : submitEnabled s = true) : allAnswered s = true := by
  rw [allAnswered_iff]
  have hlen : s.mcqQuestions.length ≤ (keys s.userAnswers).length := by
    simp [submitEnabled, submitDisabled, answeredCount] at h
    exact h.2
  intro i hi
  have hcov := covers_of_length_ge (keys s.userAnswers) s.mcqQuestions.length
    (nodup_keys _) (fun k hk => hinv.keys_range k ((mem_keys_iff _ _).1 hk)) hlen i hi
  exact (mem_keys_iff _ _).1 hcov

theorem inv_initial : Inv initial := by
  refine ⟨by decide, Or.inr ⟨rfl, rfl⟩, ?_, ?_⟩
  · intro k hk
    simp [initial] at hk
  · intro h
    simp [initial] at h

theorem inv_step (s : Quiz) (ev : Event) (hinv : Inv s) : Inv (step s ev) := by
  obtain ⟨hnn, hlt, hkeys, hres⟩ := hinv
  cases ev with
  | generate questions =>
    refine ⟨by simp [step, loadQuestions], ?_, ?_, ?_⟩
    · show (0 : Int) < (questions.length : Int) ∨ (questions.length = 0 ∧ (0 : Int) = 0)
      by_cases h0 : questions.length = 0
      · exact Or.inr ⟨h0, rfl⟩
      · left
        omega
    · intro k hk
      simp [step, loadQuestions] at hk
    · intro h
      simp [step, loadQuestions] at h
  | select optionIndex =>
    by_cases hoff : selectOffered s optionIndex = true
    · have hvis : quizVisible s = true := by
        simp only [selectOffered, Bool.and_eq_true] at hoff
        exact hoff.1
      obtain ⟨hpos, hshow⟩ := (quizVisible_iff s).1 hvis
      simp only [step, hoff, if_true, handleAnswerSelect]
      refine ⟨hnn, hlt, ?_, ?_⟩
      · intro k hk
        rcases mem_assign_keys hk with rfl | hk
        · refine ⟨hnn, ?_⟩
          rcases hlt with hlt | ⟨h0, _⟩
          · exact hlt
          · omega
        · exact hkeys k hk
      · intro h
        simp [hshow] at h
    · simp only [step, hoff]
      exact ⟨hnn, hlt, hkeys, hres⟩
  | next =>
    by_cases hen : nextEnabled s = true
    · have hvis : quizVisible s = true ∧
          s.currentQuestionIndex < (s.mcqQuestions.length : Int) - 1 := by
        simpa [nextEnabled, notLast] using hen
      obtain ⟨hpos, hshow⟩ := (quizVisible_iff s).1 hvis.1
      simp only [step, hen, if_true, next]
      refine ⟨?_, Or.inl ?_, hkeys, ?_⟩
      · show 0 ≤ s.currentQuestionIndex + 1
        omega
      · show s.currentQuestionIndex + 1 < (s.mcqQuestions.length : Int)
        omega
      · intro h
        simp [hshow] at h
    · simp only [step, hen]
      exact ⟨hnn, hlt, hkeys, hres⟩
  | previous =>
    by_cases hen : previousEnabled s = true
    · have hvis : quizVisible s = true := by
        simp only [previousEnabled, Bool.and_eq_true] at hen
        exact hen.1
      obtain ⟨hpos, hshow⟩ := (quizVisible_iff s).1 hvis
      simp only [step, hen, if_true, previous]
      refine ⟨le_max_left _ _, Or.inl ?_, hkeys, ?_⟩
      · show max 0 (s.currentQuestionIndex - 1) < (s.mcqQuestions.length : Int)
        rcases hlt with hlt | ⟨h0, _⟩
        · rw [max_lt_iff]
          constructor <;> omega
        · omega
      · intro h
        simp [hshow] at h
    · simp only [step, hen]
      exact ⟨hnn, hlt, hkeys, hres⟩
  | submit =>
    by_cases hen : submitEnabled s = true
    · have hall := allAnswered_of_submitEnabled ⟨hnn, hlt, hkeys, hres⟩ hen
      simp only [step, hen, if_true, calculateScore]
      refine ⟨hnn, hlt, hkeys, ?_⟩
      intro _
      exact hall
    · simp only [step, hen]
      exact ⟨hnn, hlt, hkeys, hres⟩
  | reset =>
    refine ⟨by simp [step, resetQuiz], Or.inr ⟨rfl, rfl⟩, ?_, ?_⟩
    · intro k hk
      simp [step, resetQuiz] at hk
    · intro h
      simp [step, resetQuiz] at h

theorem inv_run (evs : List Event) : ∀ s : Quiz, Inv s → Inv (run s evs) := by
  induction evs with
  | nil => intro s h; exact h
  | cons ev rest ih =>
    intro s h
    exact ih _ (inv_step s ev h)

/-- In a state satisfying the invariant no more questions are answered than
there are questions. -/
theorem answeredCount_le {s : Quiz} (hinv : Inv s) :
    answeredCount s ≤ s.mcqQuestions.length :=
  length_le_of_range (keys s.userAnswers) s.mcqQuestions.length (nodup_keys _)
    (fun k hk => hinv.keys_range k ((mem_keys_iff _ _).1 hk))

end Client

namespace Client

/-! ### Rounding to doubles -/

theorem roundHalfEven_cases (y : ℚ) : roundHalfEven y = ⌊y⌋ ∨ roundHalfEven y = ⌊y⌋ + 1 := by
  unfold roundHalfEven
  split
  · exact Or.inl rfl
  · split
    · exact Or.inr rfl
    · split
      · exact Or.inl rfl
      · exact Or.inr rfl

theorem roundHalfEven_near (y : ℚ) : |((roundHalfEven y : ℤ) : ℚ) - y| ≤ 1 / 2 := by
  have h1 : ((⌊y⌋ : ℤ) : ℚ) ≤ y := Int.floor_le y
  have h2 : y < ((⌊y⌋ : ℤ) : ℚ) + 1 := Int.lt_floor_add_one y
  unfold roundHalfEven
  rw [abs_le]
  split
  · constructor <;> linarith
  · split
    · push_cast
      constructor <;> linarith
    · split
      · constructor <;> linarith
      · push_cast
        constructor <;> linarith

theorem le_roundHalfEven {y : ℚ} {m : ℤ} (h : (m : ℚ) ≤ y) : m ≤ roundHalfEven y := by
  have hfloor : m ≤ ⌊y⌋ := Int.le_floor.2 h
  rcases roundHalfEven_cases y with hc | hc <;> omega

theorem roundHalfEven_le {y : ℚ} {m : ℤ} (h : y ≤ (m : ℚ)) : roundHalfEven y ≤ m := by
  have hfloor : ⌊y⌋ ≤ m := by
    have : ((⌊y⌋ : ℤ) : ℚ) ≤ (m : ℚ) := le_trans (Int.floor_le y) h
    exact_mod_cast this
  by_cases hlt : ⌊y⌋ < m
  · rcases roundHalfEven_cases y with hc | hc <;> omega
  · have heq : ⌊y⌋ = m := by omega
    have hy : y = (m : ℚ) := by
      apply le_antisymm h
      rw [← heq]
      exact Int.floor_le y
    have hfrac : y - ((⌊y⌋ : ℤ) : ℚ) < 1 / 2 := by
      rw [heq, hy]
      norm_num
    unfold roundHalfEven
    rw [if_pos hfrac]
    omega

/-- Away from a tie the rounded value is the nearest integer. -/
theorem roundHalfEven_eq {y : ℚ} {m : ℤ} (h1 : (m : ℚ) - 1 / 2 < y) (h2 : y < (m : ℚ) + 1 / 2) :
    roundHalfEven y = m := by
  have hnear := abs_le.1 (roundHalfEven_near y)
  have hlt : ((roundHalfEven y : ℤ) : ℚ) < (m : ℚ) + 1 := by linarith [hnear.2]
  have hgt : (m : ℚ) - 1 < ((roundHalfEven y : ℤ) : ℚ) := by linarith [hnear.1]
  have hlt' : roundHalfEven y < m + 1 := by exact_mod_cast hlt
  have hgt' : m - 1 < roundHalfEven y := by exact_mod_cast hgt
  omega

theorem log_two_eq {x : ℚ} {e : ℤ} (h1 : (2 : ℚ) ^ e ≤ x) (h2 : x < (2 : ℚ) ^ (e + 1)) :
    Int.log 2 x = e := by
  have hx : 0 < x := lt_of_lt_of_le (by positivity) h1
  have hle : e ≤ Int.log 2 x := by
    apply (Int.zpow_le_iff_le_log (by norm_num) hx).1
    exact_mod_cast h1
  have hlt : Int.log 2 x < e + 1 := by
    apply (Int.lt_zpow_iff_log_lt (by norm_num) hx).1
    exact_mod_cast h2
  omega

theorem ulp_pos (x : ℚ) : 0 < ulp x := by
  unfold ulp
  positivity

/-- The binade of a positive number. -/
theorem binade {x : ℚ} (hx : 0 < x) :
    (2 : ℚ) ^ (52 : ℤ) * ulp x ≤ x ∧ x < (2 : ℚ) ^ (53 : ℤ) * ulp x := by
  have hlow : ((2 : ℕ) : ℚ) ^ Int.log 2 x ≤ x := Int.zpow_log_le_self (by norm_num) hx
  have hhigh : x < ((2 : ℕ) : ℚ) ^ (Int.log 2 x + 1) := Int.lt_zpow_succ_log_self (by norm_num) x
  have h52 : (2 : ℚ) ^ (52 : ℤ) * ulp x = (2 : ℚ) ^ Int.log 2 x := by
    unfold ulp
    rw [abs_of_pos hx, ← zpow_add₀ (by norm_num : (2 : ℚ) ≠ 0)]
    congr 1
    omega
  have h53 : (2 : ℚ) ^ (53 : ℤ) * ulp x = (2 : ℚ) ^ (Int.log 2 x + 1) := by
    unfold ulp
    rw [abs_of_pos hx, ← zpow_add₀ (by norm_num : (2 : ℚ) ≠ 0)]
    congr 1
    omega
  rw [h52, h53]
  constructor
  · exact_mod_cast hlow
  · exact_mod_cast hhigh

theorem ulp_eq {x : ℚ} {e : ℤ} (h1 : (2 : ℚ) ^ e ≤ x) (h2 : x < (2 : ℚ) ^ (e + 1)) :
    ulp x = (2 : ℚ) ^ (e - 52) := by
  have hx : 0 < x := lt_of_lt_of_le (by positivity) h1
  unfold ulp
  rw [abs_of_pos hx, log_two_eq h1 h2]

/-- The double of a positive number, computed from its binade and the nearest
significand, away from a tie. -/
theorem toDouble_eq (x : ℚ) (e m : ℤ) (h1 : (2 : ℚ) ^ e ≤ x) (h2 : x < (2 : ℚ) ^ (e + 1))
    (hm1 : (m : ℚ) - 1 / 2 < x / (2 : ℚ) ^ (e - 52))
    (hm2 : x / (2 : ℚ) ^ (e - 52) < (m : ℚ) + 1 / 2) :
    toDouble x = (m : ℚ) * (2 : ℚ) ^ (e - 52) := by
  have hx : 0 < x := lt_of_lt_of_le (by positivity) h1
  unfold toDouble
  rw [if_neg (ne_of_gt hx), ulp_eq h1 h2, roundHalfEven_eq hm1 hm2]

theorem toDouble_zero : toDouble 0 = 0 := by
  simp [toDouble]

theorem toDouble_nonneg {x : ℚ} (hx : 0 ≤ x) : 0 ≤ toDouble x := by
  unfold toDouble
  split
  · exact le_refl _
  · have hq := ulp_pos x
    have hy : ((0 : ℤ) : ℚ) ≤ x / ulp x := by
      push_cast
      exact div_nonneg hx (le_of_lt hq)
    have hr : (0 : ℤ) ≤ roundHalfEven (x / ulp x) := le_roundHalfEven hy
    have hr' : (0 : ℚ) ≤ ((roundHalfEven (x / ulp x) : ℤ) : ℚ) := by exact_mod_cast hr
    exact mul_nonneg hr' (le_of_lt hq)

/-- Rounding moves a positive number by at most half a spacing, which is at
most `2 ^ (-53)` of the number. -/
theorem toDouble_error {x : ℚ} (hx : 0 ≤ x) :
    |toDouble x - x| ≤ x * (2 : ℚ) ^ (-53 : ℤ) := by
  rcases eq_or_lt_of_le hx with h0 | hpos
  · rw [← h0, toDouble_zero]
    norm_num
  · have hq := ulp_pos x
    have hb := (binade hpos).1
    unfold toDouble
    rw [if_neg (ne_of_gt hpos)]
    have hnear := roundHalfEven_near (x / ulp x)
    have hscale : ((roundHalfEven (x / ulp x) : ℤ) : ℚ) * ulp x - x
        = (((roundHalfEven (x / ulp x) : ℤ) : ℚ) - x / ulp x) * ulp x := by
      field_simp
    rw [hscale, abs_mul, abs_of_pos hq]
    have hhalf : |((roundHalfEven (x / ulp x) : ℤ) : ℚ) - x / ulp x| * ulp x ≤ 1 / 2 * ulp x :=
      mul_le_mul_of_nonneg_right hnear (le_of_lt hq)
    have hulp : 1 / 2 * ulp x ≤ x * (2 : ℚ) ^ (-53 : ℤ) := by
      have h53 : (2 : ℚ) ^ (-53 : ℤ) * (2 : ℚ) ^ (52 : ℤ) = 1 / 2 := by norm_num
      calc 1 / 2 * ulp x = (2 : ℚ) ^ (-53 : ℤ) * ((2 : ℚ) ^ (52 : ℤ) * ulp x) := by
            rw [← mul_assoc, h53]
        _ ≤ (2 : ℚ) ^ (-53 : ℤ) * x := by
            apply mul_le_mul_of_nonneg_left hb
            positivity
        _ = x * (2 : ℚ) ^ (-53 : ℤ) := mul_comm _ _
    exact le_trans hhalf hulp

/-- Rounding does not pass a double: a number at most `m * 2 ^ (E - 52)`, with
`m` a 53-bit significand, rounds to at most that double. -/
theorem toDouble_le_double (x : ℚ) (E m : ℤ) (hx : 0 ≤ x)
    (hm1 : (2 : ℤ) ^ 52 ≤ m) (hm2 : m < (2 : ℤ) ^ 53)
    (h : x ≤ (m : ℚ) * (2 : ℚ) ^ (E - 52)) :
    toDouble x ≤ (m : ℚ) * (2 : ℚ) ^ (E - 52) := by
  rcases eq_or_lt_of_le hx with h0 | hpos
  · rw [← h0, toDouble_zero]
    have hm : (0 : ℚ) ≤ (m : ℚ) := by
      have : (0 : ℤ) ≤ m := le_trans (by norm_num) hm1
      exact_mod_cast this
    exact mul_nonneg hm (by positivity)
  · have hq := ulp_pos x
    obtain ⟨hb1, hb2⟩ := binade hpos
    have hm1' : (2 : ℚ) ^ (52 : ℤ) ≤ (m : ℚ) := by
      have : ((2 : ℤ) ^ 52 : ℤ) ≤ m := hm1
      exact_mod_cast this
    have hm2' : (m : ℚ) < (2 : ℚ) ^ (53 : ℤ) := by
      have : m < ((2 : ℤ) ^ 53 : ℤ) := hm2
      exact_mod_cast this
    have hE : (0 : ℚ) < (2 : ℚ) ^ (E - 52) := by positivity
    -- the exponent of `x` is at most `E`
    have hlog : Int.log 2 x ≤ E := by
      have hlt : ((2 : ℕ) : ℚ) ^ Int.log 2 x < ((2 : ℕ) : ℚ) ^ (E + 1) := by
        have hlow : ((2 : ℕ) : ℚ) ^ Int.log 2 x ≤ x := Int.zpow_log_le_self (by norm_num) hpos
        have hup : (m : ℚ) * (2 : ℚ) ^ (E - 52) < (2 : ℚ) ^ (E + 1) := by
          have : (2 : ℚ) ^ (E + 1) = (2 : ℚ) ^ (53 : ℤ) * (2 : ℚ) ^ (E - 52) := by
            rw [← zpow_add₀ (by norm_num : (2 : ℚ) ≠ 0)]
            congr 1
            omega
          rw [this]
          exact mul_lt_mul_of_pos_right hm2' hE
        push_cast
        exact lt_of_le_of_lt hlow (lt_of_le_of_lt h hup)
      have := (zpow_lt_zpow_iff_right₀ (by norm_num : (1 : ℚ) < ((2 : ℕ) : ℚ))).1 hlt
      omega
    unfold toDouble
    rw [if_neg (ne_of_gt hpos)]
    rcases eq_or_lt_of_le hlog with heq | hlt
    · have hulp : ulp x = (2 : ℚ) ^ (E - 52) := by
        unfold ulp
        rw [abs_of_pos hpos, heq]
      rw [hulp]
      have hy : x / (2 : ℚ) ^ (E - 52) ≤ (m : ℚ) := (div_le_iff₀ hE).2 h
      have hr : roundHalfEven (x / (2 : ℚ) ^ (E - 52)) ≤ m := roundHalfEven_le hy
      have hr' : ((roundHalfEven (x / (2 : ℚ) ^ (E - 52)) : ℤ) : ℚ) ≤ (m : ℚ) := by
        exact_mod_cast hr
      exact mul_le_mul_of_nonneg_right hr' (le_of_lt hE)
    · have hy : x / ulp x ≤ (((2 : ℤ) ^ 53 : ℤ) : ℚ) := by
        rw [div_le_iff₀ hq]
        have h53 : (((2 : ℤ) ^ 53 : ℤ) : ℚ) = (2 : ℚ) ^ (53 : ℤ) := by norm_num
        rw [h53]
        exact le_of_lt hb2
      have hr : roundHalfEven (x / ulp x) ≤ (2 : ℤ) ^ 53 := roundHalfEven_le hy
      have hr' : ((roundHalfEven (x / ulp x) : ℤ) : ℚ) ≤ (2 : ℚ) ^ (53 : ℤ) := by
        have : ((roundHalfEven (x / ulp x) : ℤ) : ℚ) ≤ (((2 : ℤ) ^ 53 : ℤ) : ℚ) := by
          exact_mod_cast hr
        have h53 : (((2 : ℤ) ^ 53 : ℤ) : ℚ) = (2 : ℚ) ^ (53 : ℤ) := by norm_num
        rw [← h53]
        exact this
      have hstep1 : ((roundHalfEven (x / ulp x) : ℤ) : ℚ) * ulp x
          ≤ (2 : ℚ) ^ (53 : ℤ) * ulp x := mul_le_mul_of_nonneg_right hr' (le_of_lt hq)
      have hstep2 : (2 : ℚ) ^ (53 : ℤ) * ulp x = (2 : ℚ) ^ (Int.log 2 x + 1) := by
        unfold ulp
        rw [abs_of_pos hpos, ← zpow_add₀ (by norm_num : (2 : ℚ) ≠ 0)]
        congr 1
        omega
      have hstep3 : (2 : ℚ) ^ (Int.log 2 x + 1) ≤ (2 : ℚ) ^ E :=
        zpow_le_zpow_right₀ (by norm_num) (by omega)
      have hstep4 : (2 : ℚ) ^ E ≤ (m : ℚ) * (2 : ℚ) ^ (E - 52) := by
        have : (2 : ℚ) ^ E = (2 : ℚ) ^ (52 : ℤ) * (2 : ℚ) ^ (E - 52) := by
          rw [← zpow_add₀ (by norm_num : (2 : ℚ) ≠ 0)]
          congr 1
          omega
        rw [this]
        exact mul_le_mul_of_nonneg_right hm1' (le_of_lt hE)
      calc ((roundHalfEven (x / ulp x) : ℤ) : ℚ) * ulp x
          ≤ (2 : ℚ) ^ (53 : ℤ) * ulp x := hstep1
        _ = (2 : ℚ) ^ (Int.log 2 x + 1) := hstep2
        _ ≤ (2 : ℚ) ^ E := hstep3
        _ ≤ (m : ℚ) * (2 : ℚ) ^ (E - 52) := hstep4

theorem toDouble_le_one {x : ℚ} (h0 : 0 ≤ x) (h1 : x ≤ 1) : toDouble x ≤ 1 := by
  have h := toDouble_le_double x 0 ((2 : ℤ) ^ 52) h0 (le_refl _) (by norm_num)
    (by norm_num; exact h1)
  have hone : (((2 : ℤ) ^ 52 : ℤ) : ℚ) * (2 : ℚ) ^ ((0 : ℤ) - 52) = 1 := by norm_num
  rw [hone] at h
  exact h

theorem toDouble_le_hundred {x : ℚ} (h0 : 0 ≤ x) (h1 : x ≤ 100) : toDouble x ≤ 100 := by
  have h := toDouble_le_double x 6 (100 * (2 : ℤ) ^ 46) h0 (by norm_num) (by norm_num)
    (by norm_num; exact h1)
  have hval : ((100 * (2 : ℤ) ^ 46 : ℤ) : ℚ) * (2 : ℚ) ^ ((6 : ℤ) - 52) = 100 := by norm_num
  rw [hval] at h
  exact h

/-- In doubles, `(23 / 40) * 100` is `57.49999999999999`. -/
theorem percentage_23_of_40 :
    percentage 23 40 = 8092405580431359 / 140737488355328 := by
  have h1 : toDouble ((23 : ℚ) / 40) = 5179139571476070 / 9007199254740992 := by
    rw [toDouble_eq ((23 : ℚ) / 40) (-1) 5179139571476070 (by norm_num) (by norm_num)
      (by norm_num) (by norm_num)]
    norm_num
  have h2 : toDouble ((5179139571476070 : ℚ) / 9007199254740992 * 100)
      = 8092405580431359 / 140737488355328 := by
    rw [toDouble_eq ((5179139571476070 : ℚ) / 9007199254740992 * 100) 5 8092405580431359
      (by norm_num) (by norm_num) (by norm_num) (by norm_num)]
    norm_num
  have hcast : ((23 : ℕ) : ℚ) / ((40 : ℕ) : ℚ) = (23 : ℚ) / 40 := by norm_num
  unfold percentage
  rw [hcast, h1, h2]

/-- In doubles, `(9 / 15) * 100` is exactly 60. -/
theorem percentage_9_of_15 : percentage 9 15 = 60 := by
  have h1 : toDouble ((9 : ℚ) / 15) = 5404319552844595 / 9007199254740992 := by
    rw [toDouble_eq ((9 : ℚ) / 15) (-1) 5404319552844595 (by norm_num) (by norm_num)
      (by norm_num) (by norm_num)]
    norm_num
  have h2 : toDouble ((5404319552844595 : ℚ) / 9007199254740992 * 100) = 60 := by
    rw [toDouble_eq ((5404319552844595 : ℚ) / 9007199254740992 * 100) 5 8444249301319680
      (by norm_num) (by norm_num) (by norm_num) (by norm_num)]
    norm_num
  have hcast : ((9 : ℕ) : ℚ) / ((15 : ℕ) : ℚ) = (9 : ℚ) / 15 := by norm_num
  unfold percentage
  rw [hcast, h1, h2]

end Client

namespace Client

/-! ### Scoring -/

/-- The loop of `calculateScore` started at `index` counts the positions `i` of
the list whose question is answered correctly at key `index + i`. -/
theorem countCorrect_eq_filter (answers : Answers) (questions : List Question) :
    ∀ index : Nat, countCorrect answers index questions
      = ((List.range questions.length).filter (fun i =>
          match questions[i]? with
          | some q =>
            decide ((answerAt answers ((index + i : Nat) : Int)).map Int.ofNat
              = some q.correctAnswer)
          | none => false)).length := by
  induction questions with
  | nil => intro index; rfl
  | cons q rest ih =>
    intro index
    rw [countCorrect, ih (index + 1), List.length_cons, List.range_succ_eq_map,
      List.filter_cons]
    have htail : (List.filter (fun i =>
          match (q :: rest)[i]? with
          | some q =>
            decide ((answerAt answers ((index + i : Nat) : Int)).map Int.ofNat
              = some q.correctAnswer)
          | none => false) (List.map Nat.succ (List.range rest.length))).length
        = (List.filter (fun i =>
          match rest[i]? with
          | some q =>
            decide ((answerAt answers ((index + 1 + i : Nat) : Int)).map Int.ofNat
              = some q.correctAnswer)
          | none => false) (List.range rest.length)).length := by
      rw [List.filter_map, List.length_map]
      congr 1
      apply List.filter_congr
      intro i _
      simp only [Function.comp, Nat.succ_eq_add_one, List.getElem?_cons_succ]
      have hidx : index + (i + 1) = index + 1 + i := by omega
      rw [hidx]
    by_cases hq : (answerAt answers (index : Int)).map Int.ofNat = some q.correctAnswer
    · simp only [List.getElem?_cons_zero, Nat.add_zero, hq, decide_True, if_true,
        List.length_cons]
      rw [htail]
      omega
    · simp only [List.getElem?_cons_zero, Nat.add_zero, hq, decide_False, if_false,
        Bool.false_eq_true]
      rw [htail]
      simp

theorem countCorrect_eq_matchingCount (questions : List Question) (answers : Answers) :
    countCorrect answers 0 questions = matchingCount questions answers := by
  rw [countCorrect_eq_filter answers questions 0]
  simp [matchingCount]

/-- The stored score of a session with at least one question. -/
theorem calculateScore_score (s : Quiz) (hN : 1 ≤ s.mcqQuestions.length) :
    (calculateScore s).score
      = some (percentage (matchingCount s.mcqQuestions s.userAnswers)
                s.mcqQuestions.length) := by
  have h0 : s.mcqQuestions.length ≠ 0 := by omega
  simp only [calculateScore, h0, if_false, countCorrect_eq_matchingCount]

/-- The double percentage is within `2 ^ (-45)` of the exact `100 * c / N`. -/
theorem percentage_error {c n : Nat} (hn : 1 ≤ n) (hc : c ≤ n) :
    |percentage c n - 100 * (c : ℚ) / (n : ℚ)| ≤ (2 : ℚ) ^ (-45 : ℤ) := by
  have hnpos : (0 : ℚ) < (n : ℚ) := by exact_mod_cast hn
  have hq0 : (0 : ℚ) ≤ (c : ℚ) / (n : ℚ) := div_nonneg (by positivity) (le_of_lt hnpos)
  have hq1 : (c : ℚ) / (n : ℚ) ≤ 1 := by
    rw [div_le_one hnpos]
    exact_mod_cast hc
  have ha0 := toDouble_nonneg hq0
  have ha1 := toDouble_le_one hq0 hq1
  have hea := abs_le.1 (toDouble_error hq0)
  have hp0 : (0 : ℚ) ≤ toDouble ((c : ℚ) / (n : ℚ)) * 100 := by positivity
  have hed := abs_le.1 (toDouble_error hp0)
  have h53 : (2 : ℚ) ^ (-53 : ℤ) = 1 / 9007199254740992 := by norm_num
  have h45 : (2 : ℚ) ^ (-45 : ℤ) = 1 / 35184372088832 := by norm_num
  have hX : 100 * (c : ℚ) / (n : ℚ) = 100 * ((c : ℚ) / (n : ℚ)) := by ring
  rw [h53] at hea hed
  rw [h45, hX]
  unfold percentage
  rw [abs_le]
  constructor <;> nlinarith

/-- The double percentage lies between 0 and 100. -/
theorem percentage_range {c n : Nat} (hn : 1 ≤ n) (hc : c ≤ n) :
    0 ≤ percentage c n ∧ percentage c n ≤ 100 := by
  have hnpos : (0 : ℚ) < (n : ℚ) := by exact_mod_cast hn
  have hq0 : (0 : ℚ) ≤ (c : ℚ) / (n : ℚ) := div_nonneg (by positivity) (le_of_lt hnpos)
  have hq1 : (c : ℚ) / (n : ℚ) ≤ 1 := by
    rw [div_le_one hnpos]
    exact_mod_cast hc
  have ha0 := toDouble_nonneg hq0
  have ha1 := toDouble_le_one hq0 hq1
  have hp0 : (0 : ℚ) ≤ toDouble ((c : ℚ) / (n : ℚ)) * 100 := by positivity
  have hp1 : toDouble ((c : ℚ) / (n : ℚ)) * 100 ≤ 100 := by linarith
  exact ⟨toDouble_nonneg hp0, toDouble_le_hundred hp0 hp1⟩

theorem jsRound_near (x : ℚ) : |((jsRound x : Int) : ℚ) - x| ≤ 1 / 2 := by
  have h1 : ((jsRound x : Int) : ℚ) ≤ x + 1 / 2 := Int.floor_le _
  have h2 : x + 1 / 2 < ((jsRound x : Int) : ℚ) + 1 := Int.lt_floor_add_one _
  rw [abs_le]
  constructor <;> linarith

theorem jsRound_eq {x : ℚ} {z : Int} (h1 : (z : ℚ) ≤ x + 1 / 2) (h2 : x + 1 / 2 < (z : ℚ) + 1) :
    jsRound x = z :=
  Int.floor_eq_iff.2 ⟨h1, h2⟩

/-- `Math.round` of the double percentage is an integer nearest to the exact
`100 * c / N`, when the list is no longer than a JavaScript array can be. -/
theorem jsRound_percentage_near {c n : Nat} (hn : 1 ≤ n) (hc : c ≤ n) (hlen : n < 2 ^ 32) :
    |((jsRound (percentage c n) : ℤ) : ℚ) - 100 * (c : ℚ) / (n : ℚ)| ≤ 1 / 2 := by
  have hnpos : (0 : ℚ) < (n : ℚ) := by exact_mod_cast hn
  have hnlt : (n : ℚ) < 4294967296 := by exact_mod_cast hlen
  have herr := abs_le.1 (percentage_error hn hc)
  have h45 : (2 : ℚ) ^ (-45 : ℤ) = 1 / 35184372088832 := by norm_num
  rw [h45] at herr
  have hk1 : ((jsRound (percentage c n) : ℤ) : ℚ) ≤ percentage c n + 1 / 2 := Int.floor_le _
  have hk2 : percentage c n + 1 / 2 < ((jsRound (percentage c n) : ℤ) : ℚ) + 1 :=
    Int.lt_floor_add_one _
  have hXn : 100 * (c : ℚ) / (n : ℚ) * (n : ℚ) = 100 * (c : ℚ) := by
    field_simp
  generalize hX : 100 * (c : ℚ) / (n : ℚ) = X at herr hXn ⊢
  generalize hd : percentage c n = d at herr hk1 hk2
  generalize hk : jsRound d = k at hk1 hk2
  have hgap1 : 2 * (n : ℚ) * (d - X) ≤ 2 * (n : ℚ) * (1 / 35184372088832) :=
    mul_le_mul_of_nonneg_left (by linarith [herr.2]) (by linarith)
  have hgap2 : 2 * (n : ℚ) * (X - d) ≤ 2 * (n : ℚ) * (1 / 35184372088832) :=
    mul_le_mul_of_nonneg_left (by linarith [herr.1]) (by linarith)
  rw [abs_le]
  constructor
  · -- `X ≤ k + 1/2`
    by_contra hcon
    have hlt : (k : ℚ) + 1 / 2 < X := by linarith
    have hq : ((((2 * k + 1) * (n : ℤ) : ℤ)) : ℚ) < (((200 * (c : ℤ) : ℤ)) : ℚ) := by
      push_cast
      have := mul_lt_mul_of_pos_right hlt hnpos
      nlinarith
    have hz : (2 * k + 1) * (n : ℤ) < 200 * (c : ℤ) := by exact_mod_cast hq
    have hz' : (2 * k + 1) * (n : ℤ) + 1 ≤ 200 * (c : ℤ) := by omega
    have hq' : ((((2 * k + 1) * (n : ℤ) + 1 : ℤ)) : ℚ) ≤ (((200 * (c : ℤ) : ℤ)) : ℚ) := by
      exact_mod_cast hz'
    push_cast at hq'
    nlinarith
  · -- `k - 1/2 ≤ X`
    by_contra hcon
    have hlt : X < (k : ℚ) - 1 / 2 := by linarith
    have hq : (((200 * (c : ℤ) : ℤ)) : ℚ) < ((((2 * k - 1) * (n : ℤ) : ℤ)) : ℚ) := by
      push_cast
      have := mul_lt_mul_of_pos_right hlt hnpos
      nlinarith
    have hz : 200 * (c : ℤ) < (2 * k - 1) * (n : ℤ) := by exact_mod_cast hq
    have hz' : 200 * (c : ℤ) + 1 ≤ (2 * k - 1) * (n : ℤ) := by omega
    have hq' : (((200 * (c : ℤ) + 1 : ℤ)) : ℚ) ≤ ((((2 * k - 1) * (n : ℤ) : ℤ)) : ℚ) := by
      exact_mod_cast hz'
    push_cast at hq'
    nlinarith

end Client

namespace Client

/-! ### Selection and navigation -/

theorem lookup_filter_ne (prev : Answers) (i j : Int) (hne : j ≠ i) :
    List.lookup j (prev.filter (fun kv => kv.1 != i)) = List.lookup j prev := by
  induction prev with
  | nil => rfl
  | cons kv rest ih =>
    obtain ⟨k, v⟩ := kv
    by_cases hk : k = i
    · subst hk
      have hjk : (j == k) = false := by simpa using hne
      simp [List.filter_cons, List.lookup, hjk, ih]
    · have hki : (k != i) = true := by simpa using hk
      by_cases hjk : j = k
      · simp [List.filter_cons, hki, List.lookup, hjk]
      · have hjk' : (j == k) = false := by simpa using hjk
        simp [List.filter_cons, hki, List.lookup, hjk', ih]

theorem answerAt_assign_same (prev : Answers) (i : Int) (o : Nat) :
    answerAt (assign prev i o) i = some o := by
  simp [answerAt, assign, List.lookup]

theorem answerAt_assign_other (prev : Answers) (i j : Int) (o : Nat) (hne : j ≠ i) :
    answerAt (assign prev i o) j = answerAt prev j := by
  have hji : (j == i) = false := by simpa using hne
  simp only [answerAt, assign, List.lookup, hji]
  exact lookup_filter_ne prev i j hne

theorem assign_assign (prev : Answers) (i : Int) (o : Nat) :
    assign (assign prev i o) i o = assign prev i o := by
  simp [assign, List.filter_cons, List.filter_filter]

end Client

namespace Client

/-! ### The three candidates of the text extraction -/

/-- Every match of the parenthesis scan is non-empty, has no closing
parenthesis, and stands in the text between an opening and a closing
parenthesis; a match begun before the text continues what was read so far. -/
theorem parenthesised_sound :
    ∀ (text : List Char) (inside : Option (List Char)) (m : List Char),
      m ∈ parenthesised inside text →
      (∀ acc, inside = some acc → ')' ∉ acc) →
      m ≠ [] ∧ ')' ∉ m ∧
        ((∃ acc before after, inside = some acc ∧ text = before ++ ')' :: after ∧
            m = acc.reverse ++ before) ∨
          ∃ before after, text = before ++ '(' :: (m ++ ')' :: after)) := by
  intro text
  induction text with
  | nil =>
    intro inside m hm _
    cases inside <;> simp [parenthesised] at hm
  | cons c rest ih =>
    intro inside m hm hacc
    cases inside with
    | none =>
      by_cases hc : c = '('
      · simp only [parenthesised, hc, if_true] at hm
        obtain ⟨hne, hclose, hplace⟩ := ih (some []) m hm (by
          intro acc hacc'
          cases hacc'
          simp)
        refine ⟨hne, hclose, Or.inr ?_⟩
        rcases hplace with ⟨acc, before, after, hacc', hrest, hm'⟩ | ⟨before, after, hrest⟩
        · cases hacc'
          refine ⟨[], after, ?_⟩
          rw [hc, hrest, hm']
          simp
        · refine ⟨c :: before, after, ?_⟩
          rw [hrest]
          rfl
      · simp only [parenthesised, hc, if_false] at hm
        obtain ⟨hne, hclose, hplace⟩ := ih none m hm (by intro acc h; cases h)
        refine ⟨hne, hclose, Or.inr ?_⟩
        rcases hplace with ⟨acc, before, after, hacc', _, _⟩ | ⟨before, after, hrest⟩
        · cases hacc'
        · refine ⟨c :: before, after, ?_⟩
          rw [hrest]
          rfl
    | some acc =>
      have haccClose : ')' ∉ acc := hacc acc rfl
      by_cases hc : c = ')'
      · by_cases hempty : acc.isEmpty = true
        · simp only [parenthesised, hc, if_true, hempty] at hm
          obtain ⟨hne, hclose, hplace⟩ := ih none m hm (by intro acc' h; cases h)
          refine ⟨hne, hclose, Or.inr ?_⟩
          rcases hplace with ⟨acc', before, after, hacc', _, _⟩ | ⟨before, after, hrest⟩
          · cases hacc'
          · refine ⟨c :: before, after, ?_⟩
            rw [hrest]
            rfl
        · simp only [parenthesised, hc, if_true, hempty, Bool.false_eq_true, if_false,
            List.mem_cons] at hm
          rcases hm with hm | hm
          · refine ⟨?_, ?_, Or.inl ⟨acc, [], rest, rfl, by rw [hc]; rfl, by simp [hm]⟩⟩
            · rw [hm]
              intro hnil
              apply hempty
              have : acc = [] := by simpa using hnil
              simp [this]
            · rw [hm]
              simpa using haccClose
          · obtain ⟨hne, hclose, hplace⟩ := ih none m hm (by intro acc' h; cases h)
            refine ⟨hne, hclose, Or.inr ?_⟩
            rcases hplace with ⟨acc', before, after, hacc', _, _⟩ | ⟨before, after, hrest⟩
            · cases hacc'
            · refine ⟨c :: before, after, ?_⟩
              rw [hrest]
              rfl
      · simp only [parenthesised, hc, if_false] at hm
        obtain ⟨hne, hclose, hplace⟩ := ih (some (c :: acc)) m hm (by
          intro acc' hacc'
          cases hacc'
          intro hmem
          rcases List.mem_cons.1 hmem with h | h
          · exact hc h.symm
          · exact haccClose h)
        refine ⟨hne, hclose, ?_⟩
        rcases hplace with ⟨acc', before, after, hacc', hrest, hm'⟩ | ⟨before, after, hrest⟩
        · cases hacc'
          refine Or.inl ⟨acc, c :: before, after, rfl, by rw [hrest]; rfl, ?_⟩
          rw [hm']
          simp
        · refine Or.inr ⟨c :: before, after, ?_⟩
          rw [hrest]
          rfl

/-- Every match of `/\(([^)]+)\)/g`, without its parentheses, is non-empty, has
no closing parenthesis and stands in the text between parentheses. -/
theorem parenthesised_match {pdfString m : List Char}
    (hm : m ∈ parenthesised none pdfString) :
    m ≠ [] ∧ ')' ∉ m ∧ ∃ before after, pdfString = before ++ '(' :: (m ++ ')' :: after) := by
  obtain ⟨hne, hclose, hplace⟩ := parenthesised_sound pdfString none m hm
    (by intro acc h; cases h)
  refine ⟨hne, hclose, ?_⟩
  rcases hplace with ⟨acc, before, after, hacc, _, _⟩ | h
  · cases hacc
  · exact h

/-- The first block of a split is a prefix of the text, free of separators. -/
theorem splitAt_head (sep : Char → Bool) (text : List Char) :
    ∃ block blocks after, splitAt sep text = block :: blocks ∧ text = block ++ after ∧
      ∀ c ∈ block, sep c = false := by
  induction text with
  | nil => exact ⟨[], [], [], rfl, rfl, by simp⟩
  | cons c rest ih =>
    by_cases hc : sep c = true
    · exact ⟨[], splitAt sep rest, c :: rest, by simp [splitAt, hc], rfl, by simp⟩
    · obtain ⟨block, blocks, after, hsplit, hrest, hfree⟩ := ih
      refine ⟨c :: block, blocks, after, by simp [splitAt, hc, hsplit], by rw [hrest]; rfl, ?_⟩
      intro x hx
      rcases List.mem_cons.1 hx with rfl | hx
      · simpa using hc
      · exact hfree x hx

/-- Every block of a split is free of separators and stands in the text. -/
theorem splitAt_block (sep : Char → Bool) :
    ∀ (text block : List Char), block ∈ splitAt sep text →
      (∀ c ∈ block, sep c = false) ∧ ∃ before after, text = before ++ block ++ after := by
  intro text
  induction text with
  | nil =>
    intro block hb
    simp only [splitAt, List.mem_singleton] at hb
    rw [hb]
    exact ⟨by simp, [], [], rfl⟩
  | cons c rest ih =>
    intro block hb
    by_cases hc : sep c = true
    · simp only [splitAt, hc, if_true, List.mem_cons] at hb
      rcases hb with hb | hb
      · rw [hb]
        exact ⟨by simp, [], c :: rest, rfl⟩
      · obtain ⟨hfree, before, after, hrest⟩ := ih block hb
        exact ⟨hfree, c :: before, after, by rw [hrest]; rfl⟩
    · obtain ⟨first, blocks, after, hsplit, hrest, hfree⟩ := splitAt_head sep rest
      have hcons : splitAt sep (c :: rest) = (c :: first) :: blocks := by
        simp [splitAt, hc, hsplit]
      rw [hcons, List.mem_cons] at hb
      rcases hb with hb | hb
      · rw [hb]
        refine ⟨?_, [], after, by rw [hrest]; rfl⟩
        intro x hx
        rcases List.mem_cons.1 hx with rfl | hx
        · simpa using hc
        · exact hfree x hx
      · have hmem : block ∈ splitAt sep rest := by
          rw [hsplit]
          exact List.mem_cons_of_mem _ hb
        obtain ⟨hfree', before, after', hrest'⟩ := ih block hmem
        exact ⟨hfree', c :: before, after', by rw [hrest']; rfl⟩

/-- The blocks of a split hold every character that is not a separator, in
order. -/
theorem splitAt_join (sep : Char → Bool) (text : List Char) :
    (splitAt sep text).flatten = text.filter (fun c => !sep c) := by
  induction text with
  | nil => rfl
  | cons c rest ih =>
    by_cases hc : sep c = true
    · simp [splitAt, hc, ih]
    · obtain ⟨first, blocks, after, hsplit, _, _⟩ := splitAt_head sep rest
      have hc' : sep c = false := by simpa using hc
      rw [hsplit] at ih
      simp only [splitAt, hc', hsplit, List.flatten_cons, List.filter_cons, Bool.not_false,
        if_true, Bool.false_eq_true, if_false, List.cons_append]
      rw [← ih]
      rfl

/-- Outside a match the scan passes over text without an opening parenthesis. -/
theorem parenthesised_skip (rest : List Char) :
    ∀ before : List Char, '(' ∉ before →
      parenthesised none (before ++ rest) = parenthesised none rest := by
  intro before
  induction before with
  | nil => intro _; rfl
  | cons c cs ih =>
    intro h
    have hc : c ≠ '(' := fun hc => h (hc ▸ List.mem_cons_self _ _)
    have hcs : '(' ∉ cs := fun hmem => h (List.mem_cons_of_mem _ hmem)
    simp only [List.cons_append, parenthesised, hc, if_false]
    exact ih hcs

/-- Inside a match the scan reads up to the next closing parenthesis. -/
theorem parenthesised_inside (after : List Char) :
    ∀ (p acc : List Char), ')' ∉ p →
      parenthesised (some acc) (p ++ ')' :: after)
        = if (acc.reverse ++ p).isEmpty then parenthesised none after
          else (acc.reverse ++ p) :: parenthesised none after := by
  intro p
  induction p with
  | nil =>
    intro acc _
    simp [parenthesised]
  | cons c cs ih =>
    intro acc h
    have hc : c ≠ ')' := fun hc => h (hc ▸ List.mem_cons_self _ _)
    have hcs : ')' ∉ cs := fun hmem => h (List.mem_cons_of_mem _ hmem)
    have hstep : parenthesised (some acc) (c :: cs ++ ')' :: after)
        = parenthesised (some (c :: acc)) (cs ++ ')' :: after) := by
      simp only [List.cons_append, parenthesised, hc, if_false]
      rfl
    rw [hstep, ih (c :: acc) hcs]
    simp

/-- The first match: from the first opening parenthesis to the next closing
one, when something stands between them; the scan goes on behind it. -/
theorem parenthesised_first {before p after : List Char} (hbefore : '(' ∉ before)
    (hp : p ≠ []) (hclose : ')' ∉ p) :
    parenthesised none (before ++ '(' :: (p ++ ')' :: after))
      = p :: parenthesised none after := by
  rw [parenthesised_skip _ before hbefore]
  simp only [parenthesised, if_true]
  rw [parenthesised_inside after p [] hclose]
  simp [hp]

/-- An empty pair of parentheses is no match. -/
theorem parenthesised_empty_pair {before after : List Char} (hbefore : '(' ∉ before) :
    parenthesised none (before ++ '(' :: ')' :: after) = parenthesised none after := by
  rw [parenthesised_skip _ before hbefore]
  simp [parenthesised]

end Client
namespace Client

/-! ### The bracket match of `generateMCQ` -/

theorem first_split {c : Char} {l : List Char} (h : c ∈ l) :
    ∃ before rest, l = before ++ c :: rest ∧ c ∉ before := by
  induction l with
  | nil => cases h
  | cons x xs ih =>
    by_cases hx : x = c
    · exact ⟨[], xs, by rw [hx]; rfl, by simp⟩
    · have hmem : c ∈ xs := by
        rcases List.mem_cons.1 h with h | h
        · exact absurd h.symm hx
        · exact h
      obtain ⟨before, rest, hsplit, hnot⟩ := ih hmem
      refine ⟨x :: before, rest, by rw [hsplit]; rfl, ?_⟩
      intro hc
      rcases List.mem_cons.1 hc with hc | hc
      · exact hx hc.symm
      · exact hnot hc

theorem last_split {c : Char} {l : List Char} (h : c ∈ l) :
    ∃ mid after, l = mid ++ c :: after ∧ c ∉ after := by
  induction l with
  | nil => cases h
  | cons x xs ih =>
    by_cases hmem : c ∈ xs
    · obtain ⟨mid, after, hsplit, hnot⟩ := ih hmem
      exact ⟨x :: mid, after, by rw [hsplit]; rfl, hnot⟩
    · have hx : x = c := by
        rcases List.mem_cons.1 h with h | h
        · exact h.symm
        · exact absurd h hmem
      exact ⟨[], xs, by rw [hx]; rfl, hmem⟩

theorem dropWhile_ne_first {c : Char} {before rest : List Char} (h : c ∉ before) :
    (before ++ c :: rest).dropWhile (fun x => x != c) = c :: rest := by
  rw [List.dropWhile_append_of_pos]
  · simp
  · intro a ha
    have hne : a ≠ c := fun hac => h (hac ▸ ha)
    simpa using hne

theorem dropWhile_ne_absent {c : Char} {l : List Char} (h : c ∉ l) :
    l.dropWhile (fun x => x != c) = [] := by
  rw [List.dropWhile_eq_nil_iff]
  intro a ha
  have hne : a ≠ c := fun hac => h (hac ▸ ha)
  simpa using hne

theorem dropLast_ne {c : Char} {mid after : List Char} (h : c ∉ after) :
    ((mid ++ c :: after).reverse.dropWhile (fun x => x != c)).reverse = mid ++ [c] := by
  have hrev : (mid ++ c :: after).reverse = after.reverse ++ c :: mid.reverse := by
    simp
  rw [hrev, dropWhile_ne_first (by simpa using h)]
  simp

/-- The first opening bracket of a text comes no later than any opening
bracket of it. -/
theorem suffix_of_first {c : Char} :
    ∀ (before a rest tail : List Char), c ∉ before →
      before ++ c :: rest = a ++ c :: tail → ∃ d, c :: rest = d ++ c :: tail := by
  intro before
  induction before with
  | nil =>
    intro a rest tail _ h
    exact ⟨a, h⟩
  | cons x xs ih =>
    intro a rest tail hnot h
    cases a with
    | nil =>
      simp only [List.nil_append, List.cons_append, List.cons.injEq] at h
      exact absurd (h.1 ▸ List.mem_cons_self _ _) hnot
    | cons y ys =>
      simp only [List.cons_append, List.cons.injEq] at h
      exact ih ys rest tail (fun hc => hnot (List.mem_cons_of_mem _ hc)) h.2

/-- The match, when the text has an opening bracket with a closing bracket
after it. -/
theorem jsonMatch_of_split {text before mid after : List Char}
    (hsplit : text = before ++ '[' :: (mid ++ ']' :: after))
    (hbefore : '[' ∉ before) (hafter : ']' ∉ after) :
    jsonMatch text = some ('[' :: (mid ++ [']'])) := by
  unfold jsonMatch
  rw [hsplit, dropWhile_ne_first hbefore]
  have hmem : (mid ++ ']' :: after).contains ']' = true := by simp
  simp only [hmem, if_true]
  rw [dropLast_ne hafter]

/-- A text with an opening bracket and a closing bracket after it splits at its
first opening and its last closing bracket. -/
theorem bracket_split {text : List Char}
    (h : ∃ a b c, text = a ++ '[' :: (b ++ ']' :: c)) :
    ∃ before mid after, text = before ++ '[' :: (mid ++ ']' :: after) ∧
      '[' ∉ before ∧ ']' ∉ after := by
  obtain ⟨a, b, c, habc⟩ := h
  have hopen : '[' ∈ text := by
    rw [habc]
    simp
  obtain ⟨before, rest, hsplit, hbefore⟩ := first_split hopen
  obtain ⟨d, hd⟩ := suffix_of_first before a rest (b ++ ']' :: c) hbefore
    (hsplit.symm.trans habc)
  have hclose : ']' ∈ rest := by
    have hmem : ']' ∈ '[' :: rest := by
      rw [hd]
      simp
    rcases List.mem_cons.1 hmem with h | h
    · exact absurd h (by decide)
    · exact h
  obtain ⟨mid, after, hrest, hafter⟩ := last_split hclose
  exact ⟨before, mid, after, by rw [hsplit, hrest], hbefore, hafter⟩

theorem jsonMatch_none_of_no_split {text : List Char}
    (h : ¬ ∃ a b c, text = a ++ '[' :: (b ++ ']' :: c)) : jsonMatch text = none := by
  unfold jsonMatch
  by_cases hopen : '[' ∈ text
  · obtain ⟨before, rest, hsplit, hbefore⟩ := first_split hopen
    rw [hsplit, dropWhile_ne_first hbefore]
    have hclose : ']' ∉ rest := by
      intro hmem
      obtain ⟨b, c, hbc⟩ := List.append_of_mem hmem
      exact h ⟨before, b, c, by rw [hsplit, hbc]⟩
    have hcontains : rest.contains ']' = false := by simpa using hclose
    simp only [hcontains, Bool.false_eq_true, if_false]
  · rw [dropWhile_ne_absent hopen]

theorem jsonMatch_eq_some_iff (text m : List Char) :
    jsonMatch text = some m ↔
      ∃ before mid after, text = before ++ '[' :: (mid ++ ']' :: after) ∧
        '[' ∉ before ∧ ']' ∉ after ∧ m = '[' :: (mid ++ [']']) := by
  constructor
  · intro h
    by_cases hex : ∃ a b c, text = a ++ '[' :: (b ++ ']' :: c)
    · obtain ⟨before, mid, after, hsplit, hbefore, hafter⟩ := bracket_split hex
      rw [jsonMatch_of_split hsplit hbefore hafter] at h
      exact ⟨before, mid, after, hsplit, hbefore, hafter, (Option.some.inj h).symm⟩
    · rw [jsonMatch_none_of_no_split hex] at h
      cases h
  · rintro ⟨before, mid, after, hsplit, hbefore, hafter, rfl⟩
    exact jsonMatch_of_split hsplit hbefore hafter

theorem jsonMatch_eq_none_iff (text : List Char) :
    jsonMatch text = none ↔ ¬ ∃ a b c, text = a ++ '[' :: (b ++ ']' :: c) := by
  constructor
  · intro h hex
    obtain ⟨before, mid, after, hsplit, hbefore, hafter⟩ := bracket_split hex
    rw [jsonMatch_of_split hsplit hbefore hafter] at h
    cases h
  · exact jsonMatch_none_of_no_split

/-- The outcome of an attempt that was started: the failure state unless a
literal is matched and parsed. -/
theorem generateMCQ_started (parse : List Char → Option (List Question)) (s : App)
    (response : Option (List Char)) (hresume : (jsTrim s.resumeText).isEmpty = false) :
    generateMCQ parse true s response
      = match (response.bind jsonMatch).bind parse with
        | none => generationFailed s
        | some questions =>
          { s with quiz := loadQuestions s.quiz questions, error := "", isLoading := false } := by
  unfold generateMCQ
  simp only [hresume, Bool.false_eq_true, if_false, Bool.not_true]
  cases response with
  | none => rfl
  | some text =>
    cases hm : jsonMatch text with
    | none => simp [hm]
    | some literal =>
      cases hp : parse literal with
      | none => simp [hm, hp]
      | some questions => simp [hm, hp]

end Client

namespace Client

/-! ### The stored score in reachable sessions -/

theorem matchingCount_le (questions : List Question) (answers : Answers) :
    matchingCount questions answers ≤ questions.length := by
  unfold matchingCount
  calc _ ≤ (List.range questions.length).length := List.length_filter_le _ _
    _ = questions.length := List.length_range _

theorem jsRound_in_range {x : ℚ} (h0 : 0 ≤ x) (h100 : x ≤ 100) :
    0 ≤ jsRound x ∧ jsRound x ≤ 100 := by
  constructor
  · apply Int.floor_nonneg.2
    linarith
  · have hlt : jsRound x < 101 := by
      apply Int.floor_lt.2
      push_cast
      linarith
    omega

theorem scored_initial : Scored initial := by
  refine ⟨⟨0, rfl, le_refl _, by norm_num⟩, ?_⟩
  intro h
  simp [initial] at h

theorem scored_step (s : Quiz) (ev : Event) (h : Scored s) : Scored (step s ev) := by
  obtain ⟨hdef, hres⟩ := h
  cases ev with
  | generate questions =>
    refine ⟨hdef, ?_⟩
    intro hshow
    simp [step, loadQuestions] at hshow
  | select optionIndex =>
    by_cases hoff : selectOffered s optionIndex = true
    · have hvis : quizVisible s = true := by
        simp only [selectOffered, Bool.and_eq_true] at hoff
        exact hoff.1
      simp only [step, hoff, if_true, handleAnswerSelect]
      refine ⟨hdef, ?_⟩
      intro hshow
      simp [((quizVisible_iff s).1 hvis).2] at hshow
    · simp only [step, hoff]
      exact ⟨hdef, hres⟩
  | next =>
    by_cases hen : nextEnabled s = true
    · have hvis : quizVisible s = true := by
        simp only [nextEnabled, Bool.and_eq_true] at hen
        exact hen.1
      simp only [step, hen, if_true, next]
      refine ⟨hdef, ?_⟩
      intro hshow
      simp [((quizVisible_iff s).1 hvis).2] at hshow
    · simp only [step, hen]
      exact ⟨hdef, hres⟩
  | previous =>
    by_cases hen : previousEnabled s = true
    · have hvis : quizVisible s = true := by
        simp only [previousEnabled, Bool.and_eq_true] at hen
        exact hen.1
      simp only [step, hen, if_true, previous]
      refine ⟨hdef, ?_⟩
      intro hshow
      simp [((quizVisible_iff s).1 hvis).2] at hshow
    · simp only [step, hen]
      exact ⟨hdef, hres⟩
  | submit =>
    by_cases hen : submitEnabled s = true
    · have hvis : quizVisible s = true := by
        simp only [submitEnabled, Bool.and_eq_true] at hen
        exact hen.1.1
      have hN : 1 ≤ s.mcqQuestions.length := ((quizVisible_iff s).1 hvis).1
      have hscore := calculateScore_score s hN
      have hrange := percentage_range hN (matchingCount_le s.mcqQuestions s.userAnswers)
      simp only [step, hen, if_true]
      exact ⟨⟨_, hscore, hrange.1, hrange.2⟩, fun _ => ⟨hN, hscore⟩⟩
    · simp only [step, hen]
      exact ⟨hdef, hres⟩
  | reset =>
    refine ⟨⟨0, rfl, le_refl _, by norm_num⟩, ?_⟩
    intro hshow
    simp [step, resetQuiz] at hshow

theorem scored_run (evs : List Event) : ∀ s : Quiz, Scored s → Scored (run s evs) := by
  induction evs with
  | nil => intro s h; exact h
  | cons ev rest ih =>
    intro s h
    exact ih _ (scored_step s ev h)

end Client


namespace Client

theorem run_append (first second : List Event) :
    ∀ s : Quiz, run s (first ++ second) = run (run s first) second := by
  induction first with
  | nil => intro s; rfl
  | cons ev rest ih =>
    intro s
    exact ih (step s ev)

/-- A submit event on a state whose Submit Quiz is enabled. -/
theorem run_submit (evs : List Event) (h : submitEnabled (run initial evs) = true) :
    run initial (evs ++ [Event.submit]) = calculateScore (run initial evs) := by
  rw [run_append]
  simp [run, step, h]

/-- The body posted in a state with a user and the results shown. -/
theorem scorePost_of_results {s : App} {user : User} (huser : s.user = some user)
    (hshow : s.quiz.showResults = true) :
    scorePost s
      = some { name := some user.name, email := some user.email, picture := some user.picture,
               googleId := some user.sub, score := displayedScore s.quiz.score } := by
  simp [scorePost, huser, hshow]

theorem calculateScore_mcqQuestions (s : Quiz) :
    (calculateScore s).mcqQuestions = s.mcqQuestions := rfl

theorem calculateScore_userAnswers (s : Quiz) :
    (calculateScore s).userAnswers = s.userAnswers := rfl

theorem calculateScore_showResults (s : Quiz) : (calculateScore s).showResults = true := rfl

set_option maxRecDepth 100000 in
theorem fortyAnswered_enabled : submitEnabled (run initial fortyAnswered) = true := by
  decide

set_option maxRecDepth 100000 in
theorem fortyAnswered_length : (run initial fortyAnswered).mcqQuestions.length = 40 := by
  decide

set_option maxRecDepth 100000 in
theorem fortyAnswered_matching :
    matchingCount (run initial fortyAnswered).mcqQuestions
      (run initial fortyAnswered).userAnswers = 23 := by
  decide

/-- The quiz state of the application after the forty-question session. -/
theorem submittedForty_reached :
    submittedForty.quiz = run initial (fortyAnswered ++ [Event.submit]) := by
  simp only [submittedForty]

theorem submittedForty_quiz :
    submittedForty.quiz = calculateScore (run initial fortyAnswered) := by
  rw [submittedForty_reached]
  exact run_submit fortyAnswered fortyAnswered_enabled

end Client
namespace Client

/-! ### Claims about the quiz session -/

/-- C9. In every state reached from the initial session by generations,
selections, Next, Previous, Submit and Reset (each control acting only when the
view offers it enabled), Submit Quiz is enabled only if every question index
`0 .. N-1` has an entry in the answer mapping; consequently whenever the
results flag is set every question has an answer. -/
theorem submit_only_when_all_answered (evs : List Event) :
    (submitEnabled (run initial evs) = true → allAnswered (run initial evs) = true) ∧
    ((run initial evs).showResults = true → allAnswered (run initial evs) = true) :=
  ⟨allAnswered_of_submitEnabled (inv_run evs initial inv_initial),
   (inv_run evs initial inv_initial).results_complete⟩

/-- Witness of C9: two questions, both answered, the pointer on the last one;
Submit Quiz is enabled, and after the submission the results are shown. -/
theorem submit_only_when_all_answered_witness :
    submitEnabled (run initial answeredOnLast) = true ∧
    allAnswered (run initial answeredOnLast) = true ∧
    (run initial (answeredOnLast ++ [Event.submit])).showResults = true ∧
    allAnswered (run initial (answeredOnLast ++ [Event.submit])) = true :=
  ⟨by decide,
   (submit_only_when_all_answered answeredOnLast).1 (by decide),
   by decide,
   (submit_only_when_all_answered (answeredOnLast ++ [Event.submit])).2 (by decide)⟩

/-- C10, as stated, fails: with two questions, both answered, and the pointer
on the first question, the number of answered questions equals the number of
questions and Submit Quiz is not available (the view shows Next instead). -/
theorem submit_not_offered_before_last_question :
    quizVisible (run initial answeredOnFirst) = true ∧
    (run initial answeredOnFirst).mcqQuestions.length = 2 ∧
    answeredCount (run initial answeredOnFirst) = 2 ∧
    (run initial answeredOnFirst).currentQuestionIndex = 0 ∧
    submitEnabled (run initial answeredOnFirst) = false := by
  decide

/-- C10, amended. In every reachable in-progress session (`N ≥ 1` questions,
results not shown), submission is blocked whenever fewer than `N` questions are
answered, and it is enabled exactly when the pointer is on the last question
and the number of answered questions equals `N`. -/
theorem submit_enabled_iff_last_and_all_answered (evs : List Event)
    (hvis : quizVisible (run initial evs) = true) :
    (answeredCount (run initial evs) < (run initial evs).mcqQuestions.length →
      submitEnabled (run initial evs) = false) ∧
    (submitEnabled (run initial evs) = true ↔
      (run initial evs).currentQuestionIndex = ((run initial evs).mcqQuestions.length : Int) - 1 ∧
      answeredCount (run initial evs) = (run initial evs).mcqQuestions.length) := by
  have hinv := inv_run evs initial inv_initial
  have hle := answeredCount_le hinv
  have hnn := hinv.pointer_nonneg
  have hlt := hinv.pointer_lt
  obtain ⟨hpos, _⟩ := (quizVisible_iff _).1 hvis
  constructor
  · intro h
    simp [submitEnabled, submitDisabled, h]
  · simp only [submitEnabled, submitDisabled, notLast, hvis, Bool.true_and, Bool.and_eq_true,
      Bool.not_eq_true', decide_eq_false_iff_not, decide_eq_true_eq]
    constructor
    · rintro ⟨h1, h2⟩
      constructor <;> omega
    · rintro ⟨h1, h2⟩
      constructor <;> omega

/-- Witness of C10 (amended): two questions, both answered, pointer on the
last question. -/
theorem submit_enabled_iff_last_and_all_answered_witness :
    quizVisible (run initial answeredOnLast) = true ∧
    ((answeredCount (run initial answeredOnLast)
        < (run initial answeredOnLast).mcqQuestions.length →
      submitEnabled (run initial answeredOnLast) = false) ∧
    (submitEnabled (run initial answeredOnLast) = true ↔
      (run initial answeredOnLast).currentQuestionIndex
        = ((run initial answeredOnLast).mcqQuestions.length : Int) - 1 ∧
      answeredCount (run initial answeredOnLast)
        = (run initial answeredOnLast).mcqQuestions.length)) :=
  ⟨by decide, submit_enabled_iff_last_and_all_answered answeredOnLast (by decide)⟩

end Client

namespace Client

/-! ### Claims about scoring, selection, navigation and reset -/

/-- C11, as stated, fails: with 23 of 40 answers correct the stored score is the
double `57.49999999999999` and not `100 * 23 / 40 = 57.5`, and the view displays
57 where `Math.round` of `57.5` is 58. -/
theorem twenty_three_of_forty_displays_57 :
    (answeredOf 40 23).mcqQuestions.length = 40 ∧
    matchingCount (answeredOf 40 23).mcqQuestions (answeredOf 40 23).userAnswers = 23 ∧
    (calculateScore (answeredOf 40 23)).score
      = some (8092405580431359 / 140737488355328) ∧
    (calculateScore (answeredOf 40 23)).score ≠ some (100 * (23 : ℚ) / 40) ∧
    displayedScore (calculateScore (answeredOf 40 23)).score = some 57 ∧
    jsRound (100 * (23 : ℚ) / 40) = 58 := by
  have hN : (answeredOf 40 23).mcqQuestions.length = 40 := by decide
  have hc : matchingCount (answeredOf 40 23).mcqQuestions (answeredOf 40 23).userAnswers = 23 := by
    decide
  have hscore : (calculateScore (answeredOf 40 23)).score
      = some (8092405580431359 / 140737488355328) := by
    rw [calculateScore_score _ (by decide), hN, hc, percentage_23_of_40]
  refine ⟨hN, hc, hscore, ?_, ?_, ?_⟩
  · rw [hscore]
    norm_num
  · rw [hscore]
    show some (jsRound _) = some 57
    congr 1
    apply jsRound_eq <;> norm_num
  · apply jsRound_eq <;> norm_num

/-- C11, amended. For every question list of length `N` with `1 ≤ N < 2 ^ 32`
and every answer mapping, `calculateScore` stores the double that
`(c / N) * 100` evaluates to, where `c` is the number of indices whose recorded
answer equals the question's correct-option index; the stored number is within
`2 ^ (-45)` of `100 * c / N`; the displayed score is `Math.round` of the stored
number and is an integer nearest to `100 * c / N` (at most one half away); and
for `c = 11`, `N = 15` the displayed score is 73. -/
theorem calculateScore_stores_percentage (s : Quiz) (hN : 1 ≤ s.mcqQuestions.length)
    (hlen : s.mcqQuestions.length < 2 ^ 32) :
    (calculateScore s).score
      = some (percentage (matchingCount s.mcqQuestions s.userAnswers)
                s.mcqQuestions.length) ∧
    |percentage (matchingCount s.mcqQuestions s.userAnswers) s.mcqQuestions.length
        - 100 * (matchingCount s.mcqQuestions s.userAnswers : ℚ)
            / (s.mcqQuestions.length : ℚ)| ≤ (2 : ℚ) ^ (-45 : ℤ) ∧
    displayedScore (calculateScore s).score
      = some (jsRound (percentage (matchingCount s.mcqQuestions s.userAnswers)
                s.mcqQuestions.length)) ∧
    |((jsRound (percentage (matchingCount s.mcqQuestions s.userAnswers)
                s.mcqQuestions.length) : ℤ) : ℚ)
        - 100 * (matchingCount s.mcqQuestions s.userAnswers : ℚ)
            / (s.mcqQuestions.length : ℚ)| ≤ 1 / 2 ∧
    (s.mcqQuestions.length = 15 → matchingCount s.mcqQuestions s.userAnswers = 11 →
      displayedScore (calculateScore s).score = some 73) := by
  have hscore := calculateScore_score s hN
  have hc := matchingCount_le s.mcqQuestions s.userAnswers
  have hnear := jsRound_percentage_near hN hc hlen
  refine ⟨hscore, percentage_error hN hc, by rw [hscore]; rfl, hnear, ?_⟩
  intro h15 h11
  rw [hscore, h15, h11]
  rw [h15, h11] at hnear
  show some (jsRound (percentage 11 15)) = some 73
  congr 1
  have hbounds := abs_le.1 hnear
  have h1 : ((jsRound (percentage 11 15) : ℤ) : ℚ) < 74 := by
    have := hbounds.2
    norm_num at this
    linarith
  have h2 : (72 : ℚ) < ((jsRound (percentage 11 15) : ℤ) : ℚ) := by
    have := hbounds.1
    norm_num at this
    linarith
  have h1' : jsRound (percentage 11 15) < 74 := by exact_mod_cast h1
  have h2' : 72 < jsRound (percentage 11 15) := by exact_mod_cast h2
  omega

/-- Witness of C11 (amended): fifteen questions, eleven answered correctly. -/
theorem calculateScore_stores_percentage_witness :
    1 ≤ (answeredFifteen 11).mcqQuestions.length ∧
    (answeredFifteen 11).mcqQuestions.length < 2 ^ 32 ∧
    (answeredFifteen 11).mcqQuestions.length = 15 ∧
    matchingCount (answeredFifteen 11).mcqQuestions (answeredFifteen 11).userAnswers = 11 ∧
    displayedScore (calculateScore (answeredFifteen 11)).score = some 73 :=
  ⟨by decide, by decide, by decide, by decide,
   (calculateScore_stores_percentage (answeredFifteen 11) (by decide) (by decide)).2.2.2.2
     (by decide) (by decide)⟩

/-- C12. For every score `x`, `getScoreMessage` returns the "Excellent" message
when `x ≥ 90`, "Great job" when `80 ≤ x < 90`, "Good work" when `70 ≤ x < 80`,
"Fair performance. Keep learning and improving." when `60 ≤ x < 70`, "Below
average" when `50 ≤ x < 60` and "Needs improvement" otherwise; `getScoreColor`
returns the green class when `x ≥ 80`, the yellow class when `60 ≤ x < 80` and
the red class otherwise (also when the score is `NaN`); and 9 correct of 15
gives score 60, the yellow class and the "Fair performance" message. -/
theorem score_message_and_color_bands (x : ℚ) :
    (90 ≤ x → getScoreMessage (some x) = "Excellent! Outstanding performance!") ∧
    (80 ≤ x → x < 90 →
      getScoreMessage (some x) = "Great job! You have strong knowledge in this area.") ∧
    (70 ≤ x → x < 80 → getScoreMessage (some x) = "Good work! You have solid understanding.") ∧
    (60 ≤ x → x < 70 →
      getScoreMessage (some x) = "Fair performance. Keep learning and improving.") ∧
    (50 ≤ x → x < 60 →
      getScoreMessage (some x) = "Below average. Consider reviewing the topics.") ∧
    (x < 50 →
      getScoreMessage (some x) = "Needs improvement. Focus on learning the fundamentals.") ∧
    (80 ≤ x → getScoreColor (some x) = "bg-green-600 shadow-green-500/50") ∧
    (60 ≤ x → x < 80 → getScoreColor (some x) = "bg-yellow-600 shadow-yellow-500/50") ∧
    (x < 60 → getScoreColor (some x) = "bg-red-600 shadow-red-500/50") ∧
    getScoreMessage none = "Needs improvement. Focus on learning the fundamentals." ∧
    getScoreColor none = "bg-red-600 shadow-red-500/50" ∧
    (∀ s : Quiz, s.mcqQuestions.length = 15 →
      matchingCount s.mcqQuestions s.userAnswers = 9 →
      (calculateScore s).score = some 60 ∧
      displayedScore (calculateScore s).score = some 60 ∧
      getScoreColor (calculateScore s).score = "bg-yellow-600 shadow-yellow-500/50" ∧
      getScoreMessage (calculateScore s).score
        = "Fair performance. Keep learning and improving.") := by
  refine ⟨?_, ?_, ?_, ?_, ?_, ?_, ?_, ?_, ?_, rfl, rfl, ?_⟩
  · intro h
    simp [getScoreMessage, jsGe, h]
  · intro h1 h2
    simp [getScoreMessage, jsGe, h1, not_le.2 h2]
  · intro h1 h2
    have h90 : ¬ (90 : ℚ) ≤ x := by linarith
    simp [getScoreMessage, jsGe, h1, not_le.2 h2, h90]
  · intro h1 h2
    have h90 : ¬ (90 : ℚ) ≤ x := by linarith
    have h80 : ¬ (80 : ℚ) ≤ x := by linarith
    simp [getScoreMessage, jsGe, h1, not_le.2 h2, h90, h80]
  · intro h1 h2
    have h90 : ¬ (90 : ℚ) ≤ x := by linarith
    have h80 : ¬ (80 : ℚ) ≤ x := by linarith
    have h70 : ¬ (70 : ℚ) ≤ x := by linarith
    simp [getScoreMessage, jsGe, h1, not_le.2 h2, h90, h80, h70]
  · intro h
    have h90 : ¬ (90 : ℚ) ≤ x := by linarith
    have h80 : ¬ (80 : ℚ) ≤ x := by linarith
    have h70 : ¬ (70 : ℚ) ≤ x := by linarith
    have h60 : ¬ (60 : ℚ) ≤ x := by linarith
    simp [getScoreMessage, jsGe, not_le.2 h, h90, h80, h70, h60]
  · intro h
    simp [getScoreColor, jsGe, h]
  · intro h1 h2
    simp [getScoreColor, jsGe, h1, not_le.2 h2]
  · intro h
    have h80 : ¬ (80 : ℚ) ≤ x := by linarith
    simp [getScoreColor, jsGe, not_le.2 h, h80]
  · intro s h15 h9
    have hscore : (calculateScore s).score = some 60 := by
      rw [calculateScore_score s (by omega), h15, h9, percentage_9_of_15]
    rw [hscore]
    refine ⟨rfl, ?_, ?_, ?_⟩
    · show some (jsRound 60) = some 60
      congr 1
      apply jsRound_eq <;> norm_num
    · simp [getScoreColor, jsGe]
      norm_num
    · simp [getScoreMessage, jsGe]
      norm_num

/-- Witness of C12: fifteen questions, nine answered correctly. -/
theorem score_message_and_color_bands_witness :
    (answeredFifteen 9).mcqQuestions.length = 15 ∧
    matchingCount (answeredFifteen 9).mcqQuestions (answeredFifteen 9).userAnswers = 9 ∧
    (calculateScore (answeredFifteen 9)).score = some 60 ∧
    displayedScore (calculateScore (answeredFifteen 9)).score = some 60 ∧
    getScoreColor (calculateScore (answeredFifteen 9)).score
      = "bg-yellow-600 shadow-yellow-500/50" ∧
    getScoreMessage (calculateScore (answeredFifteen 9)).score
      = "Fair performance. Keep learning and improving." :=
  ⟨by decide, by decide,
   (score_message_and_color_bands 0).2.2.2.2.2.2.2.2.2.2.2 (answeredFifteen 9)
     (by decide) (by decide)⟩

end Client


namespace Client

/-- C13. For every session state, question index `i` and option `o`, selecting
`o` for `i` sets the answer entry of `i` to `o` (whatever it was), leaves every
other entry, the pointer, the question list, the results flag and the score
unchanged, and selecting the same option for the same question twice gives the
same state as selecting it once. -/
theorem select_sets_one_entry (s : Quiz) (i : Int) (o : Nat) :
    answerAt (handleAnswerSelect s i o).userAnswers i = some o ∧
    (∀ j : Int, j ≠ i →
      answerAt (handleAnswerSelect s i o).userAnswers j = answerAt s.userAnswers j) ∧
    (handleAnswerSelect s i o).currentQuestionIndex = s.currentQuestionIndex ∧
    (handleAnswerSelect s i o).mcqQuestions = s.mcqQuestions ∧
    (handleAnswerSelect s i o).showResults = s.showResults ∧
    (handleAnswerSelect s i o).score = s.score ∧
    handleAnswerSelect (handleAnswerSelect s i o) i o = handleAnswerSelect s i o := by
  refine ⟨answerAt_assign_same _ _ _, ?_, rfl, rfl, rfl, rfl, ?_⟩
  · intro j hne
    exact answerAt_assign_other _ _ _ _ hne
  · simp only [handleAnswerSelect, assign_assign]

/-- C14. In every reachable session with `N ≥ 1` questions the pointer `p` lies
in `[0, N - 1]`; and while the session is in progress, Previous moves the
pointer to `max(0, p - 1)` and Next moves it to `min(N - 1, p + 1)`. -/
theorem pointer_moves_within_bounds (evs : List Event)
    (hN : 1 ≤ (run initial evs).mcqQuestions.length) :
    0 ≤ (run initial evs).currentQuestionIndex ∧
    (run initial evs).currentQuestionIndex ≤ ((run initial evs).mcqQuestions.length : Int) - 1 ∧
    (quizVisible (run initial evs) = true →
      (step (run initial evs) Event.previous).currentQuestionIndex
        = max 0 ((run initial evs).currentQuestionIndex - 1) ∧
      (step (run initial evs) Event.next).currentQuestionIndex
        = min (((run initial evs).mcqQuestions.length : Int) - 1)
            ((run initial evs).currentQuestionIndex + 1)) := by
  have hinv := inv_run evs initial inv_initial
  have hnn := hinv.pointer_nonneg
  have hlt : (run initial evs).currentQuestionIndex
      < ((run initial evs).mcqQuestions.length : Int) := by
    rcases hinv.pointer_lt with h | ⟨h0, _⟩
    · exact h
    · omega
  refine ⟨hnn, by omega, ?_⟩
  intro hvis
  constructor
  · by_cases h0 : (run initial evs).currentQuestionIndex = 0
    · have hdis : previousEnabled (run initial evs) = false := by
        simp [previousEnabled, h0]
      simp [step, hdis, h0]
    · have hen : previousEnabled (run initial evs) = true := by
        simp [previousEnabled, hvis, h0]
      simp [step, hen, previous]
  · by_cases hlast : (run initial evs).currentQuestionIndex
        < ((run initial evs).mcqQuestions.length : Int) - 1
    · have hen : nextEnabled (run initial evs) = true := by
        simp [nextEnabled, notLast, hvis, hlast]
      simp only [step, hen, if_true, next]
      rw [min_eq_right (by omega)]
    · have hdis : nextEnabled (run initial evs) = false := by
        simp [nextEnabled, notLast, hlast]
      simp only [step, hdis]
      rw [min_eq_left (by omega)]
      simp only [Bool.false_eq_true, if_false]
      omega

/-- Witness of C14: two questions, both answered, the pointer on the last. -/
theorem pointer_moves_within_bounds_witness :
    1 ≤ (run initial answeredOnLast).mcqQuestions.length ∧
    (0 ≤ (run initial answeredOnLast).currentQuestionIndex ∧
    (run initial answeredOnLast).currentQuestionIndex
      ≤ ((run initial answeredOnLast).mcqQuestions.length : Int) - 1 ∧
    (quizVisible (run initial answeredOnLast) = true →
      (step (run initial answeredOnLast) Event.previous).currentQuestionIndex
        = max 0 ((run initial answeredOnLast).currentQuestionIndex - 1) ∧
      (step (run initial answeredOnLast) Event.next).currentQuestionIndex
        = min (((run initial answeredOnLast).mcqQuestions.length : Int) - 1)
            ((run initial answeredOnLast).currentQuestionIndex + 1))) :=
  ⟨by decide, pointer_moves_within_bounds answeredOnLast (by decide)⟩

/-- C15. For every session state, Reset gives the state without questions:
the question list is empty, the pointer is 0, the answer mapping is empty, the
results flag is cleared and the score is 0, whatever the state was before; it
is the initial session. -/
theorem reset_discards_session (s : Quiz) :
    (resetQuiz s).mcqQuestions = [] ∧
    (resetQuiz s).currentQuestionIndex = 0 ∧
    (resetQuiz s).userAnswers = [] ∧
    (resetQuiz s).showResults = false ∧
    (resetQuiz s).score = some 0 ∧
    resetQuiz s = initial ∧
    step s Event.reset = initial :=
  ⟨rfl, rfl, rfl, rfl, rfl, rfl, rfl⟩

end Client


namespace Client

/-! ### Claims about text extraction and upload -/

/-- C16, as stated, fails: a PDF from which exactly 50 characters of cleaned
text are recovered is rejected with the "unable to extract" message and the
text is not set. -/
theorem fifty_characters_rejected :
    (cleanText fiftyLetters).length = 50 ∧
    (onDrop noSections App.initial [pdfOf fiftyLetters]).error
      = "Unable to extract readable text from this PDF. Please try a different PDF file." ∧
    (onDrop noSections App.initial [pdfOf fiftyLetters]).resumeText = [] := by
  decide

/-- C16, amended. For every uploaded PDF that can be read, extraction fails
with the "unable to extract readable text" message exactly when 50 or fewer
characters of cleaned text are recovered, and then the text is empty; with more
than 50 recovered characters it succeeds: the résumé text is set to the
structured cleaned text and the message is cleared. -/
theorem extraction_fails_iff_at_most_fifty (structureText : List Char → List Char)
    (s : App) (file : File) (others : List File) (pdfString : List Char)
    (htype : file.type = "application/pdf") (htext : file.text = some pdfString) :
    ((onDrop structureText s (file :: others)).error
        = "Unable to extract readable text from this PDF. Please try a different PDF file."
      ↔ (cleanText pdfString).length ≤ 50) ∧
    ((cleanText pdfString).length ≤ 50 →
      (onDrop structureText s (file :: others)).resumeText = []) ∧
    (50 < (cleanText pdfString).length →
      (onDrop structureText s (file :: others)).resumeText
        = structureText (cleanText pdfString) ∧
      (onDrop structureText s (file :: others)).error = "") := by
  by_cases hlen : 50 < (cleanText pdfString).length
  · have hnot : ¬ (cleanText pdfString).length ≤ 50 := by omega
    simp [onDrop, htype, htext, hlen, hnot]
  · have hle : (cleanText pdfString).length ≤ 50 := by omega
    simp [onDrop, htype, htext, hlen, hle]

/-- Witness of C16 (amended): 51 letters are accepted. -/
theorem extraction_fails_iff_at_most_fifty_witness :
    (pdfOf fiftyOneLetters).type = "application/pdf" ∧
    (pdfOf fiftyOneLetters).text = some fiftyOneLetters ∧
    (cleanText fiftyOneLetters).length = 51 ∧
    (onDrop noSections App.initial [pdfOf fiftyOneLetters]).resumeText
      = noSections (cleanText fiftyOneLetters) ∧
    (onDrop noSections App.initial [pdfOf fiftyOneLetters]).error = "" :=
  ⟨by decide, by decide, by decide,
   (extraction_fails_iff_at_most_fifty noSections App.initial (pdfOf fiftyOneLetters) []
     fiftyOneLetters (by decide) (by decide)).2.2 (by decide)⟩

/-- C17, as stated, fails: on `(Hello World) trailing text here` the text kept
before clean-up is the first candidate followed by a space and the second one,
which is none of the three candidates. -/
theorem kept_text_is_no_single_candidate :
    extractedText parenthesisedSample
      = "Hello World Hello World  trailing text here".toList ∧
    parenthesisCandidate parenthesisedSample = "Hello World".toList ∧
    blockCandidate parenthesisedSample = "Hello World  trailing text here".toList ∧
    wordsCandidate parenthesisedSample = "Hello World trailing text here".toList ∧
    extractedText parenthesisedSample ≠ parenthesisCandidate parenthesisedSample ∧
    extractedText parenthesisedSample ≠ blockCandidate parenthesisedSample ∧
    extractedText parenthesisedSample ≠ wordsCandidate parenthesisedSample := by
  decide

/-- C17, amended. For every decoded PDF string, extraction computes three
candidates, each a list of pieces joined by spaces: the parenthesised
substrings longer than 3 characters that contain a letter; the blocks between
control characters that are longer than 10 characters and contain a letter,
cleaned and trimmed and then longer than 5 characters; and the alphabetic runs
longer than 2 characters.  The text it keeps before clean-up is the
alphabetic-run candidate when that has strictly more characters than the first
two taken together (the first, followed by a space and the second when there is
a block), and those two taken together otherwise; and the cleaned text is at
most 3000 characters long. -/
theorem extraction_keeps_longer_text (pdfString : List Char) :
    (parenthesisCandidate pdfString = joinSpace (parenthesisPieces pdfString) ∧
      (∀ p, p ∈ parenthesisPieces pdfString ↔
        p ∈ parenthesised none pdfString ∧ 3 < p.length ∧ ∃ c ∈ p, isLetter c = true) ∧
      (∀ p ∈ parenthesised none pdfString, p ≠ [] ∧ ')' ∉ p ∧
        ∃ before after, pdfString = before ++ '(' :: (p ++ ')' :: after)) ∧
      (∀ before p after, pdfString = before ++ '(' :: (p ++ ')' :: after) →
        '(' ∉ before → p ≠ [] → ')' ∉ p →
        parenthesised none pdfString = p :: parenthesised none after)) ∧
    (blockCandidate pdfString = joinSpace (textBlocks pdfString) ∧
      (∀ b, b ∈ textBlocks pdfString ↔
        ∃ raw, raw ∈ splitAt isControl pdfString ∧ 10 < raw.length ∧
          (∃ c ∈ raw, isLetter c = true) ∧ b = jsTrim (blankOthers raw) ∧ 5 < b.length) ∧
      (∀ raw ∈ splitAt isControl pdfString, (∀ c ∈ raw, isControl c = false) ∧
        ∃ before after, pdfString = before ++ raw ++ after) ∧
      (splitAt isControl pdfString).flatten = pdfString.filter (fun c => !isControl c)) ∧
    (wordsCandidate pdfString = joinSpace (wordList pdfString) ∧
      (∀ w, w ∈ wordList pdfString ↔ w ∈ letterRuns pdfString ∧ 2 < w.length) ∧
      (∀ w ∈ letterRuns pdfString, w ≠ [] ∧ (∀ c ∈ w, isLetter c = true) ∧
        ∃ before after, pdfString = before ++ w ++ after) ∧
      (letterRuns pdfString).flatten = pdfString.filter isLetter) ∧
    accumulatedText pdfString
      = parenthesisCandidate pdfString ++
          (if (textBlocks pdfString).isEmpty then [] else ' ' :: blockCandidate pdfString) ∧
    ((accumulatedText pdfString).length < (wordsCandidate pdfString).length →
      extractedText pdfString = wordsCandidate pdfString) ∧
    ((wordsCandidate pdfString).length ≤ (accumulatedText pdfString).length →
      extractedText pdfString = accumulatedText pdfString) ∧
    (parenthesisCandidate pdfString).length ≤ (extractedText pdfString).length ∧
    (blockCandidate pdfString).length ≤ (extractedText pdfString).length ∧
    (wordsCandidate pdfString).length ≤ (extractedText pdfString).length ∧
    (cleanText pdfString).length ≤ 3000 := by
  have hparen : (parenthesisCandidate pdfString).length ≤ (accumulatedText pdfString).length := by
    simp [accumulatedText]
  have hblock : (blockCandidate pdfString).length ≤ (accumulatedText pdfString).length := by
    unfold accumulatedText
    by_cases hb : (textBlocks pdfString).isEmpty = true
    · have hnil : textBlocks pdfString = [] := List.isEmpty_iff.1 hb
      simp [blockCandidate, joinSpace, hnil, List.intercalate]
    · simp only [hb, List.length_append, List.length_cons]
      simp
      omega
  refine ⟨⟨rfl, ?_, ?_, ?_⟩, ⟨rfl, ?_, ?_, splitAt_join isControl pdfString⟩,
    ⟨rfl, ?_, ?_, ?_⟩, rfl, ?_, ?_, ?_, ?_, ?_, ?_⟩
  · intro p
    simp [parenthesisPieces, List.mem_filter]
  · intro p hp
    exact parenthesised_match hp
  · intro before p after hsplit hbefore hp hclose
    rw [hsplit]
    exact parenthesised_first hbefore hp hclose
  · intro b
    simp only [textBlocks, List.mem_filter, List.mem_map, Bool.and_eq_true, decide_eq_true_eq,
      List.any_eq_true]
    constructor
    · rintro ⟨⟨raw, ⟨hraw, hlen, hletter⟩, rfl⟩, hb⟩
      exact ⟨raw, hraw, hlen, hletter, rfl, hb⟩
    · rintro ⟨raw, hraw, hlen, hletter, rfl, hb⟩
      exact ⟨⟨raw, ⟨hraw, hlen, hletter⟩, rfl⟩, hb⟩
  · intro raw hraw
    exact splitAt_block isControl pdfString raw hraw
  · intro w
    simp [wordList, List.mem_filter]
  · intro w hw
    simp only [letterRuns, List.mem_filter, Bool.not_eq_true', List.isEmpty_eq_false] at hw
    obtain ⟨hfree, hplace⟩ := splitAt_block (fun c => !isLetter c) pdfString w hw.1
    refine ⟨hw.2, ?_, hplace⟩
    intro c hc
    simpa using hfree c hc
  · have hjoin := splitAt_join (fun c => !isLetter c) pdfString
    have hdrop : ∀ blocks : List (List Char),
        (blocks.filter (fun run => !run.isEmpty)).flatten = blocks.flatten := by
      intro blocks
      induction blocks with
      | nil => rfl
      | cons block rest ih =>
        cases block with
        | nil => simpa using ih
        | cons c cs => simp [List.filter_cons, ih]
    unfold letterRuns
    rw [hdrop, hjoin]
    simp
  · intro h
    simp [extractedText, h]
  · intro h
    have hnot : ¬ (accumulatedText pdfString).length < (wordsCandidate pdfString).length := by
      omega
    simp [extractedText, hnot]
  · unfold extractedText
    split <;> omega
  · unfold extractedText
    split <;> omega
  · unfold extractedText
    split <;> omega
  · simp [cleanText, List.length_take]

/-- C18, as stated, fails: after an upload that set the résumé text, a PDF
from which only 50 characters are recovered clears the text and replaces the
recorded file; so does a file whose type is not `application/pdf`. -/
theorem failed_upload_clears_text :
    afterUpload.resumeText = fiftyOneLetters ∧
    afterUpload.resumeFile = some (pdfOf fiftyOneLetters) ∧
    (cleanText fiftyLetters).length = 50 ∧
    (onDrop noSections afterUpload [pdfOf fiftyLetters]).resumeText = [] ∧
    (onDrop noSections afterUpload [pdfOf fiftyLetters]).resumeText ≠ afterUpload.resumeText ∧
    (onDrop noSections afterUpload [pdfOf fiftyLetters]).resumeFile
      = some (pdfOf fiftyLetters) ∧
    (onDrop noSections afterUpload [pdfOf fiftyLetters]).resumeFile ≠ afterUpload.resumeFile ∧
    (onDrop noSections afterUpload [plainTextFile]).resumeText = [] ∧
    (onDrop noSections afterUpload [plainTextFile]).resumeFile = some plainTextFile := by
  decide

/-- C18, amended. For every application state, an upload that hands the
handler no accepted file changes nothing; an upload whose first accepted file
is not of type `application/pdf`, cannot be read, or yields 50 or fewer cleaned
characters records that file, clears the résumé text and sets a non-empty
error message, and changes no other state (the quiz, the loading flags, the
user, the leaderboard). -/
theorem failed_upload_changes_file_text_error (structureText : List Char → List Char)
    (s : App) (file : File) (others : List File)
    (hfail : file.type ≠ "application/pdf" ∨ file.text = none ∨
      ∃ pdfString, file.text = some pdfString ∧ (cleanText pdfString).length ≤ 50) :
    onDrop structureText s [] = s ∧
    onDrop structureText s (file :: others)
      = { s with resumeFile := some file, resumeText := [],
                 error := (onDrop structureText s (file :: others)).error } ∧
    (onDrop structureText s (file :: others)).error ≠ "" ∧
    (onDrop structureText s (file :: others)).quiz = s.quiz ∧
    (onDrop structureText s (file :: others)).isLoading = s.isLoading ∧
    (onDrop structureText s (file :: others)).user = s.user := by
  refine ⟨rfl, ?_⟩
  by_cases htype : file.type = "application/pdf"
  · cases htext : file.text with
    | none =>
      simp [onDrop, htype, htext]
    | some pdfString =>
      have hle : (cleanText pdfString).length ≤ 50 := by
        rcases hfail with h | h | ⟨t, ht, hlen⟩
        · exact absurd htype h
        · rw [htext] at h
          cases h
        · rw [htext] at ht
          cases ht
          exact hlen
      have hnot : ¬ 50 < (cleanText pdfString).length := by omega
      simp [onDrop, htype, htext, hnot]
  · simp [onDrop, htype]

/-- Witness of C18 (amended): a PDF with 50 recoverable characters, after an
earlier upload. -/
theorem failed_upload_changes_file_text_error_witness :
    ((pdfOf fiftyLetters).type ≠ "application/pdf" ∨ (pdfOf fiftyLetters).text = none ∨
      ∃ pdfString, (pdfOf fiftyLetters).text = some pdfString ∧
        (cleanText pdfString).length ≤ 50) ∧
    (onDrop noSections afterUpload [] = afterUpload ∧
    onDrop noSections afterUpload [pdfOf fiftyLetters]
      = { afterUpload with resumeFile := some (pdfOf fiftyLetters), resumeText := [],
                           error := (onDrop noSections afterUpload [pdfOf fiftyLetters]).error } ∧
    (onDrop noSections afterUpload [pdfOf fiftyLetters]).error ≠ "" ∧
    (onDrop noSections afterUpload [pdfOf fiftyLetters]).quiz = afterUpload.quiz ∧
    (onDrop noSections afterUpload [pdfOf fiftyLetters]).isLoading = afterUpload.isLoading ∧
    (onDrop noSections afterUpload [pdfOf fiftyLetters]).user = afterUpload.user) :=
  ⟨Or.inr (Or.inr ⟨fiftyLetters, rfl, by decide⟩),
   failed_upload_changes_file_text_error noSections afterUpload (pdfOf fiftyLetters) []
     (Or.inr (Or.inr ⟨fiftyLetters, rfl, by decide⟩))⟩

end Client

namespace Client

/-! ### Claims about question generation -/

/-- C19, as stated, fails: in the response `[] see [1]` the first array literal
is `[]`, which parses, but the text handed to the parser is the whole
`[] see [1]`, from the first opening to the last closing bracket, and the
generation fails. -/
theorem match_runs_to_last_bracket :
    jsonMatch arrayThenNote = some "[] see [1]".toList ∧
    jsonMatch arrayThenNote ≠ some "[]".toList ∧
    emptyArrayOnly "[]".toList = some [] ∧
    (generateMCQ emptyArrayOnly true afterUpload (some arrayThenNote)).error
      = "Failed to generate questions. Please try again." := by
  decide

/-- C19, amended. For every response text, the text handed to the JSON parser
runs from the first opening bracket to the last closing bracket after it (so a
valid array followed by text without a closing bracket yields that array's
questions); nothing is handed over exactly when the text has no opening bracket
with a closing bracket after it; and a started generation fails exactly when
nothing is matched or parsing the matched text throws, and otherwise installs
the parsed questions. -/
theorem match_is_first_open_to_last_close (parse : List Char → Option (List Question))
    (s : App) (responseText : List Char)
    (hresume : (jsTrim s.resumeText).isEmpty = false) :
    (∀ literal, jsonMatch responseText = some literal ↔
      ∃ before mid after, responseText = before ++ '[' :: (mid ++ ']' :: after) ∧
        '[' ∉ before ∧ ']' ∉ after ∧ literal = '[' :: (mid ++ [']'])) ∧
    (jsonMatch responseText = none ↔
      ¬ ∃ a b c, responseText = a ++ '[' :: (b ++ ']' :: c)) ∧
    ((generateMCQ parse true s (some responseText)).error
        = "Failed to generate questions. Please try again."
      ↔ (jsonMatch responseText = none ∨
          ∃ literal, jsonMatch responseText = some literal ∧ parse literal = none)) ∧
    (∀ literal questions, jsonMatch responseText = some literal →
      parse literal = some questions →
      (generateMCQ parse true s (some responseText)).quiz.mcqQuestions = questions ∧
      (generateMCQ parse true s (some responseText)).error = "") := by
  refine ⟨fun literal => jsonMatch_eq_some_iff responseText literal,
    jsonMatch_eq_none_iff responseText, ?_, ?_⟩
  · rw [generateMCQ_started parse s (some responseText) hresume]
    cases hm : jsonMatch responseText with
    | none => simp [hm, generationFailed]
    | some literal =>
      cases hp : parse literal with
      | none => simp [hm, hp, generationFailed]
      | some questions => simp [hm, hp]
  · intro literal questions hm hp
    rw [generateMCQ_started parse s (some responseText) hresume]
    simp [hm, hp, loadQuestions]

/-- Witness of C19 (amended): an array with text around it that has no
bracket. -/
theorem match_is_first_open_to_last_close_witness :
    (jsTrim afterUpload.resumeText).isEmpty = false ∧
    jsonMatch arrayInProse = some "[]".toList ∧
    emptyArrayOnly "[]".toList = some [] ∧
    (generateMCQ emptyArrayOnly true afterUpload (some arrayInProse)).quiz.mcqQuestions = [] ∧
    (generateMCQ emptyArrayOnly true afterUpload (some arrayInProse)).error = "" :=
  ⟨by decide, by decide, by decide,
   (match_is_first_open_to_last_close emptyArrayOnly afterUpload arrayInProse
     (by decide)).2.2.2 "[]".toList [] (by decide) (by decide)⟩

/-- C20. For every state, a generation attempt that fails (the external call
throws, the response has no array to match, or parsing throws) leaves the
question list, the pointer, the answer mapping, the results flag and the score
as they were; only the error message and the loading flag change, and after a
started attempt they are the failure message and `false`. -/
theorem failed_generation_keeps_session (parse : List Char → Option (List Question))
    (aiConfigured : Bool) (s : App) (response : Option (List Char))
    (hfail : response = none ∨ (∃ text, response = some text ∧ jsonMatch text = none) ∨
      ∃ text literal, response = some text ∧ jsonMatch text = some literal ∧
        parse literal = none) :
    (generateMCQ parse aiConfigured s response).quiz = s.quiz ∧
    generateMCQ parse aiConfigured s response
      = { s with error := (generateMCQ parse aiConfigured s response).error,
                 isLoading := (generateMCQ parse aiConfigured s response).isLoading } ∧
    ((jsTrim s.resumeText).isEmpty = false → aiConfigured = true →
      (generateMCQ parse aiConfigured s response).error
        = "Failed to generate questions. Please try again." ∧
      (generateMCQ parse aiConfigured s response).isLoading = false) := by
  have hnone : (response.bind jsonMatch).bind parse = none := by
    rcases hfail with h | ⟨text, h, hm⟩ | ⟨text, literal, h, hm, hp⟩
    · simp [h]
    · simp [h, hm]
    · simp [h, hm, hp]
  by_cases hresume : (jsTrim s.resumeText).isEmpty = true
  · simp [generateMCQ, hresume]
  · have hresume' : (jsTrim s.resumeText).isEmpty = false := by simpa using hresume
    cases aiConfigured with
    | false => simp [generateMCQ, hresume']
    | true =>
      rw [generateMCQ_started parse s response hresume', hnone]
      simp [generationFailed]

/-- Witness of C20: the external call throws after an upload. -/
theorem failed_generation_keeps_session_witness :
    ((none : Option (List Char)) = none ∨
      (∃ text, (none : Option (List Char)) = some text ∧ jsonMatch text = none) ∨
      ∃ text literal, (none : Option (List Char)) = some text ∧
        jsonMatch text = some literal ∧ emptyArrayOnly literal = none) ∧
    (generateMCQ emptyArrayOnly true afterUpload none).quiz = afterUpload.quiz ∧
    (generateMCQ emptyArrayOnly true afterUpload none).error
      = "Failed to generate questions. Please try again." ∧
    (generateMCQ emptyArrayOnly true afterUpload none).isLoading = false :=
  ⟨Or.inl rfl,
   (failed_generation_keeps_session emptyArrayOnly true afterUpload none (Or.inl rfl)).1,
   ((failed_generation_keeps_session emptyArrayOnly true afterUpload none (Or.inl rfl)).2.2
     (by decide) rfl).1,
   ((failed_generation_keeps_session emptyArrayOnly true afterUpload none (Or.inl rfl)).2.2
     (by decide) rfl).2⟩

end Client

namespace Client

/-! ### Claims about the submitted score and the results view -/

/-- C21, as stated, fails: after a signed-in user submits forty questions with
23 answers correct, the client posts 57, while `round(100 * 23 / 40)`, the
`Math.round` of 57.5, is 58. -/
theorem twenty_three_of_forty_posts_57 :
    submittedForty.quiz = run initial (fortyAnswered ++ [Event.submit]) ∧
    submittedForty.quiz.mcqQuestions.length = 40 ∧
    matchingCount submittedForty.quiz.mcqQuestions submittedForty.quiz.userAnswers = 23 ∧
    (scorePost submittedForty).map (fun body => body.score) = some (some 57) ∧
    jsRound (100 * (23 : ℚ) / 40) = 58 := by
  have hN := fortyAnswered_length
  have hc := fortyAnswered_matching
  have hquiz := submittedForty_quiz
  have huser : submittedForty.user = some sampleUser := rfl
  generalize run initial fortyAnswered = q at hN hc hquiz
  have hscore : submittedForty.quiz.score = some (8092405580431359 / 140737488355328) := by
    rw [hquiz, calculateScore_score q (by omega), hN, hc, percentage_23_of_40]
  have hshow : submittedForty.quiz.showResults = true := by
    rw [hquiz, calculateScore_showResults]
  refine ⟨submittedForty_reached, ?_, ?_, ?_, ?_⟩
  · rw [hquiz, calculateScore_mcqQuestions]
    exact hN
  · rw [hquiz, calculateScore_mcqQuestions, calculateScore_userAnswers]
    exact hc
  · have hround : jsRound ((8092405580431359 : ℚ) / 140737488355328) = 57 := by
      apply jsRound_eq <;> norm_num
    rw [scorePost_of_results huser hshow, hscore]
    simp only [Option.map_some', displayedScore, hround]
  · apply jsRound_eq <;> norm_num

/-- C21, amended. In every reachable state with fewer than `2 ^ 32` questions,
the client posts a score exactly when the results flag is set and a signed-in
identity is present; the session then has `N ≥ 1` questions and the posted
score is `Math.round` of the stored double `(c / N) * 100`, with `c` the number
of matching answers: an integer nearest to `100 * c / N` (at most one half
away) that lies between 0 and 100. -/
theorem posted_score_is_rounded_percentage (s : App) (evs : List Event)
    (hreach : s.quiz = run initial evs) (hlen : s.quiz.mcqQuestions.length < 2 ^ 32) :
    ((scorePost s).isSome = true ↔ s.quiz.showResults = true ∧ s.user.isSome = true) ∧
    (∀ body, scorePost s = some body →
      1 ≤ s.quiz.mcqQuestions.length ∧
      body.score
        = some (jsRound (percentage (matchingCount s.quiz.mcqQuestions s.quiz.userAnswers)
                  s.quiz.mcqQuestions.length)) ∧
      |((jsRound (percentage (matchingCount s.quiz.mcqQuestions s.quiz.userAnswers)
                  s.quiz.mcqQuestions.length) : ℤ) : ℚ)
          - 100 * (matchingCount s.quiz.mcqQuestions s.quiz.userAnswers : ℚ)
              / (s.quiz.mcqQuestions.length : ℚ)| ≤ 1 / 2 ∧
      0 ≤ jsRound (percentage (matchingCount s.quiz.mcqQuestions s.quiz.userAnswers)
                  s.quiz.mcqQuestions.length) ∧
      jsRound (percentage (matchingCount s.quiz.mcqQuestions s.quiz.userAnswers)
                  s.quiz.mcqQuestions.length) ≤ 100) := by
  have hscored : Scored s.quiz := by
    rw [hreach]
    exact scored_run evs initial scored_initial
  constructor
  · unfold scorePost
    cases s.user with
    | none => simp
    | some user =>
      cases s.quiz.showResults <;> simp
  · intro body hbody
    unfold scorePost at hbody
    cases huser : s.user with
    | none =>
      rw [huser] at hbody
      cases hbody
    | some user =>
      rw [huser] at hbody
      cases hshow : s.quiz.showResults with
      | false =>
        rw [hshow] at hbody
        simp at hbody
      | true =>
        rw [hshow] at hbody
        simp only [if_true, Option.some.injEq] at hbody
        obtain ⟨hN, hscore⟩ := hscored.results hshow
        have hc := matchingCount_le s.quiz.mcqQuestions s.quiz.userAnswers
        have hrange := percentage_range hN hc
        have hround := jsRound_in_range hrange.1 hrange.2
        refine ⟨hN, ?_, jsRound_percentage_near hN hc hlen, hround.1, hround.2⟩
        rw [← hbody, hscore]
        rfl

/-- Witness of C21 (amended): two questions, one answered correctly, submitted
by a signed-in user. -/
theorem posted_score_is_rounded_percentage_witness :
    submittedApp.quiz = run initial (answeredOnLast ++ [Event.submit]) ∧
    submittedApp.quiz.mcqQuestions.length < 2 ^ 32 ∧
    (scorePost submittedApp).isSome = true ∧
    submittedApp.quiz.showResults = true ∧ submittedApp.user.isSome = true ∧
    (∀ body, scorePost submittedApp = some body →
      1 ≤ submittedApp.quiz.mcqQuestions.length ∧
      body.score
        = some (jsRound (percentage (matchingCount submittedApp.quiz.mcqQuestions
                    submittedApp.quiz.userAnswers) submittedApp.quiz.mcqQuestions.length)) ∧
      |((jsRound (percentage (matchingCount submittedApp.quiz.mcqQuestions
                    submittedApp.quiz.userAnswers) submittedApp.quiz.mcqQuestions.length) : ℤ) : ℚ)
          - 100 * (matchingCount submittedApp.quiz.mcqQuestions
                    submittedApp.quiz.userAnswers : ℚ)
              / (submittedApp.quiz.mcqQuestions.length : ℚ)| ≤ 1 / 2 ∧
      0 ≤ jsRound (percentage (matchingCount submittedApp.quiz.mcqQuestions
                    submittedApp.quiz.userAnswers) submittedApp.quiz.mcqQuestions.length) ∧
      jsRound (percentage (matchingCount submittedApp.quiz.mcqQuestions
                    submittedApp.quiz.userAnswers) submittedApp.quiz.mcqQuestions.length) ≤ 100) :=
  ⟨rfl, by decide, by decide, by decide, by decide,
   (posted_score_is_rounded_percentage submittedApp (answeredOnLast ++ [Event.submit]) rfl
     (by decide)).2⟩

/-- C23. In every state reached through the quiz controls and generations (an
empty parsed array included), Submit Quiz is enabled only with `N ≥ 1`
questions, so `calculateScore` never divides by zero, and the stored score is a
defined number between 0 and 100. -/
theorem score_always_defined (evs : List Event) :
    (submitEnabled (run initial evs) = true → 1 ≤ (run initial evs).mcqQuestions.length) ∧
    (step (run initial evs) Event.submit ≠ run initial evs →
      1 ≤ (run initial evs).mcqQuestions.length) ∧
    ∃ x : ℚ, (run initial evs).score = some x ∧ 0 ≤ x ∧ x ≤ 100 := by
  have henabled : submitEnabled (run initial evs) = true →
      1 ≤ (run initial evs).mcqQuestions.length := by
    intro hen
    have hvis : quizVisible (run initial evs) = true := by
      simp only [submitEnabled, Bool.and_eq_true] at hen
      exact hen.1.1
    exact ((quizVisible_iff _).1 hvis).1
  refine ⟨henabled, ?_, (scored_run evs initial scored_initial).defined⟩
  intro hchanged
  by_cases hen : submitEnabled (run initial evs) = true
  · exact henabled hen
  · exact absurd (by simp [step, hen]) hchanged

/-- Witness of C23: after a generation whose parsed array is empty, Submit
Quiz is not enabled, a submit event changes nothing and the score is still 0. -/
theorem score_always_defined_witness :
    (run initial [Event.generate []]).mcqQuestions.length = 0 ∧
    submitEnabled (run initial [Event.generate []]) = false ∧
    step (run initial [Event.generate []]) Event.submit = run initial [Event.generate []] ∧
    ∃ x : ℚ, (run initial [Event.generate [], Event.submit]).score = some x ∧ 0 ≤ x ∧ x ≤ 100 :=
  ⟨by decide, by decide, by decide,
   (score_always_defined [Event.generate [], Event.submit]).2.2⟩

/-- C24 on the code: with a medium question answered correctly followed by an
easy question answered wrongly (every question tagged easy or medium, every
question answered), the results view prints 1 for Easy although no easy
question is answered correctly, and Easy and Medium sum to 2 although one
answer is correct. -/
theorem easy_count_reads_unfiltered_index :
    (run initial mediumThenEasy).showResults = true ∧
    allAnswered (run initial mediumThenEasy) = true ∧
    (run initial mediumThenEasy).mcqQuestions.map (fun q => q.difficulty) = ["medium", "easy"] ∧
    shownForTag "easy" (run initial mediumThenEasy) = 1 ∧
    correctWithTag "easy" (run initial mediumThenEasy) = 0 ∧
    shownForTag "medium" (run initial mediumThenEasy) = 1 ∧
    correctWithTag "medium" (run initial mediumThenEasy) = 1 ∧
    correctShown (run initial mediumThenEasy) = 1 ∧
    shownForTag "easy" (run initial mediumThenEasy)
      + shownForTag "medium" (run initial mediumThenEasy)
      ≠ correctShown (run initial mediumThenEasy) := by
  decide

end Client
